import Mathlib

/-!
Verification of the JSON persistence layer of the Root-Convert repository
(`src/utils/json_utils.py`): the type-handler registry, the envelope
encode/decode hooks, and the load-merge-save file cycle.

Python strings are embedded as `List Char`; Python integers as `Int` or
`Nat`; a persisted text document is represented abstractly by the tree it
denotes (see `JText`).  All definitions are translated from the source file;
external library behaviour (`json`, `dateutil`, `datetime`) is modelled to
its documented semantics on the inputs this program produces.
-/

/-! ### Decimal digit strings

`str(n)` for a non-negative Python integer, and the digit-parsing core of
`int(s)`.  Rendering uses an explicit fuel argument (always sufficient) so
that it is structurally recursive and evaluates by kernel reduction. -/


/-- The character for the decimal digit `n` (`n < 10`). -/
def decDigit (n : Nat) : Char := Char.ofNat (48 + n)

/-- `True` for `'0'..'9'`. -/
def isDecDigit (c : Char) : Bool := 48 ≤ c.toNat && c.toNat ≤ 57

/-- The numeric value of a decimal digit character. -/
def digitVal (c : Char) : Nat := c.toNat - 48

/-- Fuel-bounded decimal rendering; the fuel only bounds recursion depth. -/
def natCharsFuel : Nat → Nat → List Char
  | 0, _ => []
  | f + 1, n =>
    if n < 10 then [decDigit n]
    else natCharsFuel f (n / 10) ++ [decDigit (n % 10)]

/-- The decimal digit string of `n`, as Python `str(n)` renders a `Nat`. -/
def natChars (n : Nat) : List Char := natCharsFuel (n + 1) n

/-- Digit-string to number: the accumulating fold both `int(s)` and a JSON
number lexer perform over the digit characters. -/
def digitsFold (cs : List Char) : Nat :=
  cs.foldl (fun a c => a * 10 + digitVal c) 0

/-- Parse a non-empty all-digit string to a `Nat`; `none` otherwise. -/
def readNat (cs : List Char) : Option Nat :=
  if cs ≠ [] ∧ cs.all isDecDigit then some (digitsFold cs) else none

/-! ### Python exception values

Constructors carry `cause` fields where the source uses `raise ... from e`.
`jsonDeserializeError` models the repository's `JSONDeserializeError`, a
subclass of both `OSError` and `ValueError`. -/

inductive PyErr where
  | keyError (key : List Char)
  | typeError
  | typeErrorFrom (cause : PyErr)
  | valueError (msg : List Char)
  | overflowError
  | osError
  | attributeError
  | nameError
  | jsonDeserializeError (cause : PyErr)
deriving Repr, DecidableEq

/-- Python `int(s)` on a decimal string: an optional sign, then digits.
(CPython additionally tolerates surrounding whitespace and digit-group
underscores; nothing this program produces or that the claims exercise
uses those, so they are not modelled.) -/
def pyToInt (cs : List Char) : Except PyErr Int :=
  match cs with
  | [] => .error (.valueError "invalid literal for int".toList)
  | c :: rest =>
    if c = '-' then
      match readNat rest with
      | some n => .ok (-(n : Int))
      | none => .error (.valueError "invalid literal for int".toList)
    else if c = '+' then
      match readNat rest with
      | some n => .ok ((n : Int))
      | none => .error (.valueError "invalid literal for int".toList)
    else
      match readNat (c :: rest) with
      | some n => .ok ((n : Int))
      | none => .error (.valueError "invalid literal for int".toList)

/-- Python `str(i)` for an integer. -/
def intChars (i : Int) : List Char :=
  if i < 0 then '-' :: natChars i.natAbs else natChars i.toNat

/-! ### Zero-padded decimal fields (`isoformat`'s fixed-width components) -/

/-- Left-pad with `'0'` to width `w`. -/
def padZeros (w : Nat) (cs : List Char) : List Char :=
  List.replicate (w - cs.length) '0' ++ cs

/-- The zero-padded decimal rendering of `n`, width `w`. -/
def natCharsPad (w n : Nat) : List Char := padZeros w (natChars n)

/-! ### Python `str.split` with a one-character separator -/

def splitBy (sep : Char) : List Char → List (List Char)
  | [] => [[]]
  | c :: rest =>
    if c = sep then [] :: splitBy sep rest
    else
      match splitBy sep rest with
      | [] => [[c]]
      | p :: ps => (c :: p) :: ps

/-! ### The Python value universe

The in-memory values the persistence layer handles: JSON-native values
(`None`, `bool`, `int`, `str`, `list`, `dict` with string keys), the
date/time values the two Reversible handlers under scrutiny claim
(`datetime.date`, naive `datetime.datetime`, `datetime.timedelta` held as
its normalized total-microsecond count), a `pandas.DataFrame` held
abstractly by its JSON text (its handler's internals are outside this
embedding; no claim exercises it), and `pyforeign`, a value of a class no
handler registered.  Floats, numpy scalars and timezone-aware datetimes
fall outside the modelled universe; no claim mentions them. -/

abbrev Key := List Char

inductive PyVal where
  | pynone
  | pybool (b : Bool)
  | pyint (n : Int)
  | pystr (s : List Char)
  | pylist (xs : List PyVal)
  | pydict (kvs : List (Key × PyVal))
  | pydate (y m d : Nat)
  | pydatetime (y m d h mi s us : Nat)
  | pytimedelta (t : Int)
  | pyframe (src : List Char)
  | pyforeign (cls : List Char)

/-! ### `DatetimeJSON`: `isoformat` and the `dateutil` parser -/

/-- `date.isoformat()`: `YYYY-MM-DD`. -/
def isoDate (y m d : Nat) : List Char :=
  natCharsPad 4 y ++ '-' :: (natCharsPad 2 m ++ '-' :: natCharsPad 2 d)

/-- The time-of-day half of `datetime.isoformat()`: `HH:MM:SS`, with
`.ffffff` appended only when the microsecond field is non-zero. -/
def isoTimePart (h mi s us : Nat) : List Char :=
  natCharsPad 2 h ++ ':' :: (natCharsPad 2 mi ++ ':' ::
    (natCharsPad 2 s ++ (if us = 0 then [] else '.' :: natCharsPad 6 us)))

/-- `datetime.isoformat()` for a naive datetime: `YYYY-MM-DDTHH:MM:SS`,
with `.ffffff` appended only when the microsecond field is non-zero. -/
def isoDatetime (y m d h mi s us : Nat) : List Char :=
  isoDate y m d ++ 'T' :: isoTimePart h mi s us

def readNatE (cs : List Char) : Except PyErr Nat :=
  match readNat cs with
  | some n => .ok n
  | none => .error (.valueError "Unknown string format".toList)

def parseIsoDateChars (cs : List Char) : Except PyErr (Nat × Nat × Nat) :=
  match splitBy '-' cs with
  | [ys, ms, ds] => do
    let y ← readNatE ys
    let m ← readNatE ms
    let d ← readNatE ds
    .ok (y, m, d)
  | _ => .error (.valueError "Unknown string format".toList)

/-- Fractional-second digits, scaled to microseconds; digits beyond the
sixth are discarded, as `dateutil` does. -/
def parseFraction (cs : List Char) : Except PyErr Nat :=
  let ds := cs.take 6
  match readNat ds with
  | some n => .ok (n * 10 ^ (6 - ds.length))
  | none => .error (.valueError "Unknown string format".toList)

def parseIsoTimeChars (cs : List Char) : Except PyErr (Nat × Nat × Nat × Nat) :=
  match splitBy ':' cs with
  | [hs, mis, ss] =>
    match splitBy '.' ss with
    | [sec] => do
      let h ← readNatE hs
      let mi ← readNatE mis
      let s ← readNatE sec
      .ok (h, mi, s, 0)
    | [sec, frac] => do
      let h ← readNatE hs
      let mi ← readNatE mis
      let s ← readNatE sec
      let us ← parseFraction frac
      .ok (h, mi, s, us)
    | _ => .error (.valueError "Unknown string format".toList)
  | _ => .error (.valueError "Unknown string format".toList)

/-- Models `dateutil.parser.parse` on the ISO-8601 strings `isoformat`
emits: the result is always a `datetime` (never a `date`); a date-only
string is completed with the parser's default time, midnight.  Inputs
outside this fragment are rejected with `ValueError` (`dateutil`'s
`ParserError` subclasses it); no claim depends on them. -/
def dateutil_parse (cs : List Char) : Except PyErr PyVal :=
  match splitBy 'T' cs with
  | [ds] => do
    let (y, m, d) ← parseIsoDateChars ds
    .ok (.pydatetime y m d 0 0 0 0)
  | [ds, ts] => do
    let (y, m, d) ← parseIsoDateChars ds
    let (h, mi, s, us) ← parseIsoTimeChars ts
    .ok (.pydatetime y m d h mi s us)
  | _ => .error (.valueError "Unknown string format".toList)

/-! ### `TimedeltaJSON`: normalized attributes, constructor, codec -/

def usPerDay : Int := 86400000000

def usPerSecond : Int := 1000000

/-- The normalized `.days` attribute of a timedelta of `t` total
microseconds (Python floor division; can be negative). -/
def tdDays (t : Int) : Int := t / usPerDay

/-- The normalized `.seconds` attribute, in `[0, 86400)`. -/
def tdSeconds (t : Int) : Int := (t % usPerDay) / usPerSecond

/-- The normalized `.microseconds` attribute, in `[0, 1000000)`. -/
def tdMicroseconds (t : Int) : Int := t % usPerSecond

/-- `datetime.timedelta(*args)` with positional arguments
`(days, seconds, microseconds, milliseconds, minutes, hours, weeks)`:
more than seven positional arguments is a `TypeError`; otherwise the
arguments are normalized into a total microsecond count, and a normalized
day count outside `±999999999` is an `OverflowError`. -/
def tdArgsTotal (args : List Int) : Int :=
  let a := fun i => args.getD i 0
  (a 6 * 7 + a 0) * usPerDay
    + (a 5 * 3600 + a 4 * 60 + a 1) * usPerSecond + a 3 * 1000 + a 2

def pyTimedeltaOfArgs (args : List Int) : Except PyErr PyVal :=
  if args.length > 7 then .error .typeError
  else if (tdArgsTotal args / usPerDay).natAbs ≤ 999999999 then
    .ok (.pytimedelta (tdArgsTotal args))
  else .error .overflowError

/-- `TimedeltaJSON.serialize`:
`f"{str(obj.days)},{str(obj.seconds)},{str(obj.microseconds)}"`. -/
def TimedeltaJSON.serializeChars (t : Int) : List Char :=
  intChars (tdDays t) ++ ',' :: (intChars (tdSeconds t) ++ ',' :: intChars (tdMicroseconds t))

/-- `TimedeltaJSON.deserialize`:
`timedelta(*tuple(map(lambda xx: int(xx), r_value.split(","))))`. -/
def TimedeltaJSON.deserializeChars (cs : List Char) : Except PyErr PyVal := do
  let fields ← (splitBy ',' cs).mapM pyToInt
  pyTimedeltaOfArgs fields

/-! ### Handler classes (json_utils.py lines 46–78) -/

/-- `DatetimeJSON.serialize`: `obj.isoformat()`; other values lack the
attribute. -/
def DatetimeJSON.serializeVal : PyVal → Except PyErr (List Char)
  | .pydate y m d => .ok (isoDate y m d)
  | .pydatetime y m d h mi s us => .ok (isoDatetime y m d h mi s us)
  | _ => .error .attributeError

/-- `DatetimeJSON.deserialize`: `parser.parse(r_value)`; `dateutil`
rejects non-string input with `TypeError`. -/
def DatetimeJSON.deserializeVal : PyVal → Except PyErr PyVal
  | .pystr s => dateutil_parse s
  | _ => .error .typeError

def TimedeltaJSON.serializeVal : PyVal → Except PyErr (List Char)
  | .pytimedelta t => .ok (TimedeltaJSON.serializeChars t)
  | _ => .error .attributeError

/-- `TimedeltaJSON.deserialize`; `.split` on a non-string is an
`AttributeError`. -/
def TimedeltaJSON.deserializeVal : PyVal → Except PyErr PyVal
  | .pystr s => TimedeltaJSON.deserializeChars s
  | _ => .error .attributeError

/-- `PdDataframe`: delegates to the pandas JSON engine, which is outside
this embedding; a frame value is held by its JSON text, so `to_json` is
the identity on it.  No claim exercises this handler. -/
def PdDataframe.serializeVal : PyVal → Except PyErr (List Char)
  | .pyframe src => .ok src
  | _ => .error .attributeError

def PdDataframe.deserializeVal : PyVal → Except PyErr PyVal
  | .pystr s => .ok (.pyframe s)
  | _ => .error (.valueError "Invalid file path or buffer object type".toList)

/-! ### The registry (`JSONMixin` class attributes, lines 126–144) -/

/-- The keys of `JSONMixin.names_to_serializers`, in declaration order. -/
def serializerNames : List Key :=
  ["datetime".toList, "timedelta".toList, "pd_dataframe".toList]

/-- The keys of `JSONMixin.names_to_converters`.  The converter handlers
themselves act on numpy/uproot values, outside the modelled universe. -/
def converterNames : List Key :=
  ["ndarray".toList, "np_float".toList, "np_int".toList, "uproot_stlc".toList]

/-- `names_to_serializers[name].serialize`, dispatched on the name. -/
def serializerEncode (name : Key) (v : PyVal) : Except PyErr (List Char) :=
  if name = "datetime".toList then DatetimeJSON.serializeVal v
  else if name = "timedelta".toList then TimedeltaJSON.serializeVal v
  else if name = "pd_dataframe".toList then PdDataframe.serializeVal v
  else .error (.keyError name)

/-- `names_to_serializers[name].deserialize`, dispatched on the name. -/
def serializerDecode (name : Key) (r : PyVal) : Except PyErr PyVal :=
  if name = "datetime".toList then DatetimeJSON.deserializeVal r
  else if name = "timedelta".toList then TimedeltaJSON.deserializeVal r
  else if name = "pd_dataframe".toList then PdDataframe.deserializeVal r
  else .error (.keyError name)

/-- `self.types_to_names[type(obj)]`: the exact-concrete-type table built
in `JSONMixin.__init__` from each handler's `types` list; `none` models
the `KeyError` for an unregistered type.  JSON-native types never reach
this lookup (the engine only calls `default` on non-native values), and
the numpy/uproot converter types are outside the modelled universe. -/
def types_to_names : PyVal → Option Key
  | .pydatetime .. => some "datetime".toList
  | .pydate .. => some "datetime".toList
  | .pytimedelta _ => some "timedelta".toList
  | .pyframe _ => some "pd_dataframe".toList
  | _ => none

/-- The class name carried by the `KeyError` of an unregistered-type
lookup. -/
def typeNameOf : PyVal → List Char
  | .pynone => "NoneType".toList
  | .pybool _ => "bool".toList
  | .pyint _ => "int".toList
  | .pystr _ => "str".toList
  | .pylist _ => "list".toList
  | .pydict _ => "dict".toList
  | .pydate .. => "date".toList
  | .pydatetime .. => "datetime".toList
  | .pytimedelta _ => "timedelta".toList
  | .pyframe _ => "DataFrame".toList
  | .pyforeign cls => cls

/-! ### `JSONMixin.json_serial` (lines 146–161) -/

/-- The `default=` hook of `json.dump`: resolve the value's concrete type;
a converter would return its native substitute, a serializer wraps the
intermediate string in the Envelope dict `{"__type__": name, "repr": s}`.
An unregistered type raises `KeyError` from the `types_to_names` lookup
itself — the `raise TypeError(...) from e` on line 161 is unreachable
(every registered name is in one of the two tables) and names an unbound
`e`, so it could only ever raise `NameError`. -/
def json_serial (obj : PyVal) : Except PyErr PyVal :=
  match types_to_names obj with
  | none => .error (.keyError (typeNameOf obj))
  | some con_name =>
    if con_name ∈ converterNames then
      -- no type of the modelled universe resolves to a converter
      .error .nameError
    else if con_name ∈ serializerNames then
      match serializerEncode con_name obj with
      | .ok serial_str =>
        .ok (.pydict [("__type__".toList, .pystr con_name),
                      ("repr".toList, .pystr serial_str)])
      | .error e => .error e
    else .error .nameError

/-! ### The JSON document tree -/

/-- A parsed JSON document: the values `json` texts denote.  Numbers are
restricted to integers — no claim involves floats. -/
inductive JVal where
  | jnull
  | jbool (b : Bool)
  | jnum (n : Int)
  | jstr (s : List Char)
  | jarr (xs : List JVal)
  | jobj (kvs : List (Key × JVal))

/-- Serializing the substitute value returned by `json_serial`: in this
embedding that substitute is always the flat two-string Envelope dict (the
converter branch is unreachable), so the engine's recursion into it is a
single non-recursive level. -/
def encodeEnvelope : PyVal → Except PyErr JVal
  | .pydict [(k1, .pystr s1), (k2, .pystr s2)] =>
    .ok (.jobj [(k1, .jstr s1), (k2, .jstr s2)])
  | _ => .error .nameError

mutual

/-- The tree walk of `json.dumps(in_obj, default=json_serial)`: native
values map to their JSON counterparts, anything else goes through the
`default` hook and its substitute is serialized. -/
def encodeTree : PyVal → Except PyErr JVal
  | .pynone => .ok .jnull
  | .pybool b => .ok (.jbool b)
  | .pyint n => .ok (.jnum n)
  | .pystr s => .ok (.jstr s)
  | .pylist xs => do .ok (.jarr (← encodeTreeList xs))
  | .pydict kvs => do .ok (.jobj (← encodeTreePairs kvs))
  | v => do encodeEnvelope (← json_serial v)

def encodeTreeList : List PyVal → Except PyErr (List JVal)
  | [] => .ok []
  | x :: xs => do .ok ((← encodeTree x) :: (← encodeTreeList xs))

def encodeTreePairs : List (Key × PyVal) → Except PyErr (List (Key × JVal))
  | [] => .ok []
  | (k, v) :: rest => do .ok ((k, ← encodeTree v) :: (← encodeTreePairs rest))

end

/-! ### Dict primitives -/

/-- First binding of `k`, if any. -/
def lookupKey {α : Type} : List (Key × α) → Key → Option α
  | [], _ => none
  | (k0, v0) :: rest, k => if k0 = k then some v0 else lookupKey rest k

/-- `d.pop(k)` result state: the bindings without the first binding of `k`. -/
def removeKey {α : Type} : List (Key × α) → Key → List (Key × α)
  | [], _ => []
  | (k0, v0) :: rest, k => if k0 = k then rest else (k0, v0) :: removeKey rest k

/-- `d[k] = v`: replace the binding in place, or append a fresh one. -/
def setKey {α : Type} : List (Key × α) → Key → α → List (Key × α)
  | [], k, v => [(k, v)]
  | (k0, v0) :: rest, k, v =>
    if k0 = k then (k0, v) :: rest else (k0, v0) :: setKey rest k v

/-! ### `JSONMixin.json_deserial` (lines 163–181) -/

/-- One binding's worth of the hook: a value that is a dict carrying
`"__type__"` is decoded — pop the tag, pop `"repr"` (a `KeyError` if it
is absent, raised before the `try` block), resolve the serializer by name
(`except KeyError` becomes `TypeError` chained from it), and return the
handler's decoded value; any other value passes through unchanged. -/
def deserialItem (v : PyVal) : Except PyErr PyVal :=
  match v with
  | .pydict inner =>
    match lookupKey inner "__type__".toList with
    | none => .ok v
    | some recover_type =>
      let inner1 := removeKey inner "__type__".toList
      match lookupKey inner1 "repr".toList with
      | none => .error (.keyError "repr".toList)
      | some recover_repr =>
        match recover_type with
        | .pystr tname =>
          if tname ∈ serializerNames then
            match serializerDecode tname recover_repr with
            | .ok newv => .ok newv
            | .error e =>
              .error (match e with
                | .keyError k => .typeErrorFrom (.keyError k)
                | _ => e)
          else .error (.typeErrorFrom (.keyError tname))
        | _ => .error (.typeErrorFrom (.keyError (typeNameOf recover_type)))
  | _ => .ok v

def deserialItems : List (Key × PyVal) → Except PyErr (List (Key × PyVal))
  | [] => .ok []
  | (k, v) :: rest => do .ok ((k, ← deserialItem v) :: (← deserialItems rest))

/-- The `object_hook` of `json.loads`: iterate the freshly-built mapping's
bindings in order, rewriting Envelope-carrying values.  The hook itself
never recurses — `json.loads` already invoked it on every nested mapping,
bottom-up. -/
def json_deserial (obj : PyVal) : Except PyErr PyVal :=
  match obj with
  | .pydict kvs => do .ok (.pydict (← deserialItems kvs))
  | _ => .ok obj

mutual

/-- The tree walk of `json.loads(s, object_hook=json_deserial)`: values
are built bottom-up and every completed mapping is passed through the
hook — including the top-level one, but never arrays or their elements. -/
def decodeTree : JVal → Except PyErr PyVal
  | .jnull => .ok .pynone
  | .jbool b => .ok (.pybool b)
  | .jnum n => .ok (.pyint n)
  | .jstr s => .ok (.pystr s)
  | .jarr xs => do .ok (.pylist (← decodeTreeList xs))
  | .jobj kvs => do json_deserial (.pydict (← decodeTreePairs kvs))

def decodeTreeList : List JVal → Except PyErr (List PyVal)
  | [] => .ok []
  | x :: xs => do .ok ((← decodeTree x) :: (← decodeTreeList xs))

def decodeTreePairs : List (Key × JVal) → Except PyErr (List (Key × PyVal))
  | [] => .ok []
  | (k, v) :: rest => do .ok ((k, ← decodeTree v) :: (← decodeTreePairs rest))

end

/-! ### Documents, files, and the load-merge-save cycle -/

/-- A persisted text, represented by what it denotes: `docText v` is the
canonical serialized text of the tree `v` (the `json` text codec is a
bijection between trees and their canonical texts), `emptyText` the empty
string, `malformedText` any other text `json.loads` rejects, and
`truncatedText` what a dump that aborted partway leaves behind — the
target was truncated on open and holds at most a strict prefix of a
document, which never parses. -/
inductive JText where
  | emptyText
  | malformedText
  | docText (v : JVal)
  | truncatedText

/-- `JSONMixin.from_json_str` (lines 203–208): empty input is rejected
first; then `json.loads` with the decode hook. -/
def from_json_str (s : JText) : Except PyErr PyVal :=
  match s with
  | .emptyText => .error (.valueError "No input to deserialize!".toList)
  | .malformedText => .error (.valueError "JSONDecodeError".toList)
  | .truncatedText => .error (.valueError "JSONDecodeError".toList)
  | .docText v => decodeTree v

/-- The state of the target path: missing, present but unreadable
(`read_text` raises `OSError`), or present with text contents. -/
inductive FileState where
  | absent
  | unreadable
  | stored (t : JText)

/-- Membership in `except (OSError, ValueError)`: `JSONDeserializeError`
subclasses both. -/
def isOsOrValueError : PyErr → Bool
  | .valueError _ => true
  | .osError => true
  | .jsonDeserializeError _ => true
  | _ => false

/-- `JSONMixin.load_json_file` (lines 220–229): a missing path yields `{}`;
otherwise parse the text, wrapping `OSError`/`ValueError` failures in
`JSONDeserializeError` — any other exception propagates unwrapped. -/
def load_json_file (st : FileState) : Except PyErr PyVal :=
  match st with
  | .absent => .ok (.pydict [])
  | .unreadable => .error (.jsonDeserializeError .osError)
  | .stored t =>
    match from_json_str t with
    | .ok v => .ok v
    | .error e =>
      if isOsOrValueError e then .error (.jsonDeserializeError e) else .error e

/-- `JSONMixin.dump_to_json_file` (lines 210–218): `in_file.open("w")`
truncates the target unconditionally, then `json.dump` streams chunks into
it; an encoding failure therefore leaves a truncated, partially-written
file, never the prior contents. -/
def dump_to_json_file (_st : FileState) (in_obj : PyVal) :
    FileState × Except PyErr Unit :=
  match encodeTree in_obj with
  | .ok v => (.stored (.docText v), .ok ())
  | .error e => (.stored .truncatedText, .error e)

/-- Python `dict.update` with a mapping argument: later bindings overwrite
in place, new keys append. -/
def pyDictUpdate (base upd : List (Key × PyVal)) : List (Key × PyVal) :=
  upd.foldl (fun acc kv => setKey acc kv.1 kv.2) base

/-- One element of `dict.update(sequence)`: the element must itself be a
sequence of length two.  A two-character string is the pair of its two
one-character strings; any other string length is the `ValueError`
`dictionary update sequence element has length N; 2 is required`.  Pairs
with non-string keys fall outside the modelled dict universe. -/
def updateSeqElem : PyVal → Except PyErr (Key × PyVal)
  | .pystr [c1, c2] => .ok ([c1], .pystr [c2])
  | .pystr _ => .error (.valueError "dictionary update sequence element".toList)
  | .pylist [.pystr k, v] => .ok (k, v)
  | .pylist _ => .error (.valueError "dictionary update sequence element".toList)
  | _ => .error .typeError

/-- `dict.update` with a sequence argument, elements assigned in order;
the first ill-formed element aborts. -/
def pyDictUpdateSeq (base : List (Key × PyVal)) :
    List PyVal → Except PyErr (List (Key × PyVal))
  | [] => .ok base
  | x :: xs => do
    let kv ← updateSeqElem x
    pyDictUpdateSeq (setKey base kv.1 kv.2) xs

/-- `file_data.update(in_data)`, dispatched on the two runtime types: the
loaded value must be a dict (anything else lacks `.update`), and the
argument a mapping, a sequence of pairs, or a string (iterated as
one-character strings, which then fail the pair-length check). -/
def pyUpdate (file_data in_data : PyVal) : Except PyErr PyVal :=
  match file_data with
  | .pydict base =>
    match in_data with
    | .pydict upd => .ok (.pydict (pyDictUpdate base upd))
    | .pylist xs => do .ok (.pydict (← pyDictUpdateSeq base xs))
    | .pystr cs => do .ok (.pydict (← pyDictUpdateSeq base (cs.map (fun c => .pystr [c]))))
    | _ => .error .typeError
  | _ => .error .attributeError

/-- `JSONMixin.update_json_file` (lines 231–251): load the existing tree,
shallow-merge `in_data` over it, dump the merged result back.  The
`parent.mkdir` call and the debug logging do not touch the modelled
state; a failure before the dump leaves the file as it was. -/
def update_json_file (st : FileState) (in_data : PyVal) :
    FileState × Except PyErr Unit :=
  match load_json_file st with
  | .error e => (st, .error e)
  | .ok file_data =>
    match pyUpdate file_data in_data with
    | .error e => (st, .error e)
    | .ok merged => dump_to_json_file st merged

/-! ### `SimpleJSON.save_data` (lines 322–342) -/

/-- Lexicographic code-point order on Python strings. -/
def strLtB : List Char → List Char → Bool
  | [], [] => false
  | [], _ :: _ => true
  | _ :: _, [] => false
  | a :: as, b :: bs =>
    if a.toNat < b.toNat then true
    else if b.toNat < a.toNat then false
    else strLtB as bs

/-- Python `<` on the values the claims sort: strings lexicographically,
integers numerically; other mixes raise `TypeError`. -/
def pyLt : PyVal → PyVal → Except PyErr Bool
  | .pyint a, .pyint b => .ok (decide (a < b))
  | .pystr a, .pystr b => .ok (strLtB a b)
  | _, _ => .error .typeError

/-- Insert into an already-sorted list, before the first element whose key
is not smaller — the stable position Python's sort gives. -/
def insertByKey (f : PyVal → PyVal) (x : PyVal) : List PyVal → Except PyErr (List PyVal)
  | [] => .ok [x]
  | y :: rest => do
    if (← pyLt (f y) (f x)) then do .ok (y :: (← insertByKey f x rest))
    else .ok (x :: y :: rest)

/-- `sorted(xs, key=f)` as a stable insertion sort: agrees with Python's
stable sort for a total key order; a key comparison that raises
propagates. -/
def pySortedByKey (f : PyVal → PyVal) : List PyVal → Except PyErr (List PyVal)
  | [] => .ok []
  | x :: xs => do insertByKey f x (← pySortedByKey f xs)

/-- `SimpleJSON.save_data`: an optional sort of the top-level keys (for a
mapping) or elements (for a sequence) before `update_json_file`.
`sort_fn` is modelled as an optional key function — the
`not callable(sort_fn)` TypeError guards non-callable Python objects,
which have no counterpart in this embedding. -/
def save_data (st : FileState) (data : PyVal) (sort_fn : Option (PyVal → PyVal)) :
    FileState × Except PyErr Unit :=
  match sort_fn with
  | none => update_json_file st data
  | some f =>
    match data with
    | .pydict kvs =>
      match pySortedByKey f (kvs.map (fun kv => .pystr kv.1)) with
      | .error e => (st, .error e)
      | .ok sortedKeys =>
        let sorted_kvs := sortedKeys.filterMap (fun sk =>
          match sk with
          | .pystr k =>
            match lookupKey kvs k with
            | some v => some (k, v)
            | none => none
          | _ => none)
        update_json_file st (.pydict sorted_kvs)
    | .pylist xs =>
      match pySortedByKey f xs with
      | .error e => (st, .error e)
      | .ok sorted_xs => update_json_file st (.pylist sorted_xs)
    | _ => (st, .error .typeError)

/-! ### Structural predicates over the value tree -/

/-- Whether the value is a `dict`. -/
def isDictB : PyVal → Bool
  | .pydict _ => true
  | _ => false

mutual

/-- Whether a value of an unregistered class occurs anywhere in the tree. -/
def hasForeign : PyVal → Bool
  | .pyforeign _ => true
  | .pylist xs => hasForeignList xs
  | .pydict kvs => hasForeignPairs kvs
  | _ => false

def hasForeignList : List PyVal → Bool
  | [] => false
  | x :: xs => hasForeign x || hasForeignList xs

def hasForeignPairs : List (Key × PyVal) → Bool
  | [] => false
  | (_, v) :: rest => hasForeign v || hasForeignPairs rest

end

mutual

/-- Plain JSON data: built only from `None`, booleans, integers, strings,
lists and dicts, with no mapping node anywhere carrying the reserved
`"__type__"` key.  Such trees serialize without the `default` hook and
decode to themselves. -/
def plainPy : PyVal → Bool
  | .pynone => true
  | .pybool _ => true
  | .pyint _ => true
  | .pystr _ => true
  | .pylist xs => plainPyList xs
  | .pydict kvs => (lookupKey kvs "__type__".toList).isNone && plainPyPairs kvs
  | _ => false

def plainPyList : List PyVal → Bool
  | [] => true
  | x :: xs => plainPy x && plainPyList xs

def plainPyPairs : List (Key × PyVal) → Bool
  | [] => true
  | (_, v) :: rest => plainPy v && plainPyPairs rest

end

mutual

/-- A size bound used as recursion fuel for `pyEqB`. -/
def pyFuelB : PyVal → Nat
  | .pylist xs => 1 + pyFuelListB xs
  | .pydict kvs => 1 + pyFuelPairsB kvs
  | _ => 1

def pyFuelListB : List PyVal → Nat
  | [] => 1
  | x :: xs => 1 + pyFuelB x + pyFuelListB xs

def pyFuelPairsB : List (Key × PyVal) → Nat
  | [] => 1
  | (_, v) :: rest => 1 + pyFuelB v + pyFuelPairsB rest

end

mutual

/-- Python `==` on the modelled values, fuel-bounded so that the recursion
is structural (the fuel `pyEqB` supplies always suffices).  Mixed
`date`/`datetime` comparison is `False` in CPython, as is any comparison
across unrelated types; `bool` compares equal to the `int` it widens to;
`dict` comparison ignores binding order (pandas frames are not compared —
`DataFrame.__eq__` does not return a truth value — and no claim compares
them). -/
def pyEqFuel : Nat → PyVal → PyVal → Bool
  | 0, _, _ => false
  | fl + 1, a, b =>
    match a, b with
    | .pynone, .pynone => true
    | .pybool x, .pybool y => x == y
    | .pybool x, .pyint y => (if x then (1 : Int) else 0) == y
    | .pyint x, .pybool y => x == (if y then (1 : Int) else 0)
    | .pyint x, .pyint y => x == y
    | .pystr x, .pystr y => x == y
    | .pylist xs, .pylist ys => pyEqListFuel fl xs ys
    | .pydict xs, .pydict ys => xs.length == ys.length && pyEqDictFuel fl xs ys
    | .pydate y1 m1 d1, .pydate y2 m2 d2 => y1 == y2 && m1 == m2 && d1 == d2
    | .pydatetime y1 m1 d1 h1 mi1 s1 us1, .pydatetime y2 m2 d2 h2 mi2 s2 us2 =>
      y1 == y2 && m1 == m2 && d1 == d2 && h1 == h2 && mi1 == mi2 && s1 == s2 && us1 == us2
    | .pytimedelta x, .pytimedelta y => x == y
    | _, _ => false

def pyEqListFuel : Nat → List PyVal → List PyVal → Bool
  | 0, _, _ => false
  | _ + 1, [], [] => true
  | fl + 1, x :: xs, y :: ys => pyEqFuel fl x y && pyEqListFuel fl xs ys
  | _ + 1, _, _ => false

/-- Each binding of the first dict must be matched by the second (with the
length check in `pyEqFuel`, this is binding-order-independent equality of
duplicate-free dicts). -/
def pyEqDictFuel : Nat → List (Key × PyVal) → List (Key × PyVal) → Bool
  | 0, _, _ => false
  | _ + 1, [], _ => true
  | fl + 1, (k, v) :: rest, ys =>
    (match lookupKey ys k with
     | some w => pyEqFuel fl v w
     | none => false) && pyEqDictFuel fl rest ys

end

/-- Python `==` on the modelled values. -/
def pyEqB (a b : PyVal) : Bool :=
  pyEqFuel (pyFuelB a + pyFuelB b) a b

/-- The comma-joined rendering of a list of integers — the strings whose
comma-split recovers exactly the list’s renderings. -/
def commaJoinInts : List Int → List Char
  | [] => []
  | [i] => intChars i
  | i :: rest => intChars i ++ ',' :: commaJoinInts rest

/-- `handler.deserialize(handler.serialize(v))`: the round trip the spec
asserts for Reversible handlers (the decode hook feeds the serialized
string back as the envelope payload). -/
def handlerRoundTrip (ser : PyVal → Except PyErr (List Char))
    (de : PyVal → Except PyErr PyVal) (v : PyVal) : Except PyErr PyVal :=
  (ser v).bind (fun s => de (.pystr s))

/-! ## Theorems -/

theorem decDigit_isDecDigit {n : Nat} (h : n < 10) : isDecDigit (decDigit n) = true := by
  interval_cases n <;> decide

theorem digitVal_decDigit {n : Nat} (h : n < 10) : digitVal (decDigit n) = n := by
  interval_cases n <;> decide

theorem div_ten_lt_pow {f n : Nat} (h : n < 10 ^ (f + 1)) : n / 10 < 10 ^ f := by
  rw [Nat.div_lt_iff_lt_mul (by omega)]
  calc n < 10 ^ (f + 1) := h
    _ = 10 ^ f * 10 := by rw [pow_succ]

/-- Fuel does not matter once it bounds the digit count. -/
theorem natCharsFuel_stable : ∀ f g n : Nat, n < 10 ^ (f + 1) → n < 10 ^ (g + 1) →
    natCharsFuel (f + 1) n = natCharsFuel (g + 1) n := by
  intro f
  induction f with
  | zero =>
    intro g n hf _
    have h10 : n < 10 := by simpa using hf
    simp [natCharsFuel, h10]
  | succ f ih =>
    intro g n hf hg
    by_cases h10 : n < 10
    · simp [natCharsFuel, h10]
    · match g with
      | 0 =>
        exact absurd (by simpa using hg) h10
      | g + 1 =>
        have h1 : natCharsFuel (f + 1 + 1) n
            = natCharsFuel (f + 1) (n / 10) ++ [decDigit (n % 10)] := by
          rw [show natCharsFuel (f + 1 + 1) n = (if n < 10 then [decDigit n]
            else natCharsFuel (f + 1) (n / 10) ++ [decDigit (n % 10)]) from rfl, if_neg h10]
        have h2 : natCharsFuel (g + 1 + 1) n
            = natCharsFuel (g + 1) (n / 10) ++ [decDigit (n % 10)] := by
          rw [show natCharsFuel (g + 1 + 1) n = (if n < 10 then [decDigit n]
            else natCharsFuel (g + 1) (n / 10) ++ [decDigit (n % 10)]) from rfl, if_neg h10]
        rw [h1, h2, ih g (n / 10) (div_ten_lt_pow hf) (div_ten_lt_pow hg)]

theorem lt_ten_pow_self (n : Nat) : n < 10 ^ n :=
  Nat.lt_pow_self (by norm_num) n

theorem lt_ten_pow_succ_self (n : Nat) : n < 10 ^ (n + 1) :=
  lt_of_lt_of_le (lt_ten_pow_self n) (Nat.pow_le_pow_right (by omega) (by omega))

/-- `natChars` computes with any sufficient fuel. -/
theorem natChars_eq_fuel (f n : Nat) (h : n < 10 ^ (f + 1)) :
    natChars n = natCharsFuel (f + 1) n :=
  natCharsFuel_stable n f n (lt_ten_pow_succ_self n) h

theorem natChars_unfold (n : Nat) :
    natChars n = (if n < 10 then [decDigit n] else natChars (n / 10) ++ [decDigit (n % 10)]) := by
  by_cases h10 : n < 10
  · simp [natChars, natCharsFuel, h10]
  · obtain ⟨m, rfl⟩ : ∃ m, n = m + 1 := ⟨n - 1, by omega⟩
    rw [show natChars (m + 1) = natCharsFuel (m + 1 + 1) (m + 1) from rfl,
      show natCharsFuel (m + 1 + 1) (m + 1) = (if m + 1 < 10 then [decDigit (m + 1)]
        else natCharsFuel (m + 1) ((m + 1) / 10) ++ [decDigit ((m + 1) % 10)]) from rfl,
      if_neg h10, if_neg h10]
    congr 1
    exact (natChars_eq_fuel m ((m + 1) / 10)
      (div_ten_lt_pow (lt_ten_pow_succ_self (m + 1)))).symm

theorem natChars_ne_nil (n : Nat) : natChars n ≠ [] := by
  rw [natChars_unfold]
  by_cases h : n < 10 <;> simp [h]

theorem natChars_all_digits (n : Nat) : ∀ c ∈ natChars n, isDecDigit c = true := by
  induction n using Nat.strong_induction_on with
  | _ n ih =>
    rw [natChars_unfold]
    by_cases h : n < 10
    · simp only [h, if_true, List.mem_singleton]
      rintro c rfl
      exact decDigit_isDecDigit h
    · simp only [h, if_false, List.mem_append, List.mem_singleton]
      rintro c (hc | rfl)
      · exact ih (n / 10) (Nat.div_lt_self (by omega) (by omega)) c hc
      · exact decDigit_isDecDigit (Nat.mod_lt n (by omega))

theorem digitsFold_append (xs : List Char) (c : Char) :
    digitsFold (xs ++ [c]) = digitsFold xs * 10 + digitVal c := by
  simp [digitsFold, List.foldl_append]

theorem digitsFold_natChars (n : Nat) : digitsFold (natChars n) = n := by
  induction n using Nat.strong_induction_on with
  | _ n ih =>
    rw [natChars_unfold]
    by_cases h : n < 10
    · simp only [h, if_true, digitsFold, List.foldl_cons, List.foldl_nil]
      simpa using digitVal_decDigit h
    · simp only [h, if_false]
      rw [digitsFold_append, ih (n / 10) (Nat.div_lt_self (by omega) (by omega)),
        digitVal_decDigit (Nat.mod_lt n (by omega))]
      omega

theorem readNat_natChars (n : Nat) : readNat (natChars n) = some n := by
  simp [readNat, natChars_ne_nil, List.all_eq_true.mpr (natChars_all_digits n),
    digitsFold_natChars]

/-- Digit-only strings never contain a given non-digit character. -/
theorem natChars_not_mem {sep : Char} (hsep : isDecDigit sep = false) (n : Nat) :
    sep ∉ natChars n := by
  intro hmem
  have := natChars_all_digits n sep hmem
  rw [hsep] at this
  exact Bool.noConfusion this

/-- Sanity check that the embedding's `Int` division is Euclidean division,
which coincides with Python floor division for the positive divisors used
throughout this file. -/
theorem ediv_floor_sanity : (-7 : Int) / 2 = -4 ∧ (-7 : Int) % 2 = 1 := by decide

theorem natChars_head (n : Nat) :
    ∃ c t, natChars n = c :: t ∧ isDecDigit c = true := by
  match h : natChars n with
  | [] => exact absurd h (natChars_ne_nil n)
  | c :: t =>
    exact ⟨c, t, rfl, natChars_all_digits n c (h ▸ List.mem_cons_self c t)⟩

theorem not_sign_of_digit {c : Char} (h : isDecDigit c = true) : c ≠ '-' ∧ c ≠ '+' := by
  constructor <;> rintro rfl <;> exact absurd h (by decide)

theorem pyToInt_natChars (n : Nat) : pyToInt (natChars n) = .ok (n : Int) := by
  obtain ⟨c, t, hct, hd⟩ := natChars_head n
  obtain ⟨hm, hp⟩ := not_sign_of_digit hd
  rw [hct, pyToInt, if_neg hm, if_neg hp, ← hct, readNat_natChars]

theorem pyToInt_intChars (i : Int) : pyToInt (intChars i) = .ok i := by
  by_cases hneg : i < 0
  · simp only [intChars, if_pos hneg, pyToInt, if_pos rfl, readNat_natChars]
    have : -((i.natAbs : Nat) : Int) = i := by omega
    rw [this]
    simp
  · rw [intChars, if_neg hneg, pyToInt_natChars]
    have : ((i.toNat : Nat) : Int) = i := by omega
    rw [this]

theorem natCharsPad_all_digits (w n : Nat) :
    ∀ c ∈ natCharsPad w n, isDecDigit c = true := by
  intro c hc
  rcases List.mem_append.mp hc with hz | hn
  · rw [List.eq_of_mem_replicate hz]; decide
  · exact natChars_all_digits n c hn

theorem natCharsPad_ne_nil (w n : Nat) : natCharsPad w n ≠ [] := by
  intro h
  rcases List.append_eq_nil.mp h with ⟨-, h2⟩
  exact natChars_ne_nil n h2

theorem digitsFold_zeros (k : Nat) (cs : List Char) :
    digitsFold (List.replicate k '0' ++ cs) = digitsFold cs := by
  have hz : ∀ j : Nat, (List.replicate j '0').foldl (fun a c => a * 10 + digitVal c) 0 = 0 := by
    intro j
    induction j with
    | zero => rfl
    | succ j ih => simpa [List.replicate_succ, digitVal] using ih
  simp [digitsFold, List.foldl_append, hz]

theorem readNat_natCharsPad (w n : Nat) : readNat (natCharsPad w n) = some n := by
  rw [readNat,
    if_pos ⟨natCharsPad_ne_nil w n, List.all_eq_true.mpr (natCharsPad_all_digits w n)⟩,
    show natCharsPad w n = List.replicate (w - (natChars n).length) '0' ++ natChars n from rfl,
    digitsFold_zeros, digitsFold_natChars]

theorem natCharsPad_not_mem {sep : Char} (hsep : isDecDigit sep = false) (w n : Nat) :
    sep ∉ natCharsPad w n := by
  intro hmem
  have := natCharsPad_all_digits w n sep hmem
  rw [hsep] at this
  exact Bool.noConfusion this

/-- `natChars n` has at most `k` digits when `n < 10 ^ k`. -/
theorem natChars_length_le {k n : Nat} (hk : 1 ≤ k) (h : n < 10 ^ k) :
    (natChars n).length ≤ k := by
  induction k generalizing n with
  | zero => omega
  | succ k ih =>
    rw [natChars_unfold]
    by_cases h10 : n < 10
    · simp [h10]
    · have hk1 : 1 ≤ k := by
        by_contra hc
        have : k = 0 := by omega
        subst this
        simp at h
        omega
      simp only [h10, if_false, List.length_append, List.length_singleton]
      have := ih hk1 (div_ten_lt_pow h)
      omega

theorem natCharsPad_length {w n : Nat} (h : (natChars n).length ≤ w) :
    (natCharsPad w n).length = w := by
  simp only [natCharsPad, padZeros, List.length_append, List.length_replicate]
  omega

theorem splitBy_ne_nil (sep : Char) (cs : List Char) : splitBy sep cs ≠ [] := by
  induction cs with
  | nil => simp [splitBy]
  | cons c rest ih =>
    rw [splitBy]
    by_cases h : c = sep
    · simp [h]
    · rw [if_neg h]
      match hs : splitBy sep rest with
      | [] => simp
      | p :: ps => simp

/-- A separator-free string splits to itself alone. -/
theorem splitBy_no_sep {sep : Char} : ∀ {p : List Char}, (∀ c ∈ p, c ≠ sep) →
    splitBy sep p = [p] := by
  intro p
  induction p with
  | nil => intro _; rfl
  | cons c rest ih =>
    intro h
    rw [splitBy, if_neg (h c (List.mem_cons_self c rest)),
      ih (fun x hx => h x (List.mem_cons_of_mem c hx))]

/-- Splitting past a separator-free head piece. -/
theorem splitBy_append_sep {sep : Char} : ∀ {p : List Char}, (∀ c ∈ p, c ≠ sep) →
    ∀ t : List Char, splitBy sep (p ++ sep :: t) = p :: splitBy sep t := by
  intro p
  induction p with
  | nil =>
    intro _ t
    simp [splitBy]
  | cons c rest ih =>
    intro h t
    rw [List.cons_append, splitBy, if_neg (h c (List.mem_cons_self c rest)),
      ih (fun x hx => h x (List.mem_cons_of_mem c hx)) t]

theorem td_decompose (t : Int) :
    (tdDays t * 86400 + tdSeconds t) * 1000000 + tdMicroseconds t = t := by
  unfold tdDays tdSeconds tdMicroseconds usPerDay usPerSecond
  omega

theorem intChars_not_mem {sep : Char} (hd : isDecDigit sep = false) (hm : sep ≠ '-') (i : Int) :
    sep ∉ intChars i := by
  rw [intChars]
  by_cases h : i < 0
  · rw [if_pos h]
    intro hmem
    rcases List.mem_cons.mp hmem with h1 | h2
    · exact hm h1
    · exact natChars_not_mem hd _ h2
  · rw [if_neg h]
    exact natChars_not_mem hd _

/-- Splitting the serialized timedelta on `","` recovers the three fields. -/
theorem splitBy_serializeChars (t : Int) :
    splitBy ',' (TimedeltaJSON.serializeChars t)
      = [intChars (tdDays t), intChars (tdSeconds t), intChars (tdMicroseconds t)] := by
  have hno : ∀ i : Int, ∀ c ∈ intChars i, c ≠ ',' := by
    intro i c hc hceq
    exact intChars_not_mem (by decide) (by decide) i (hceq ▸ hc)
  rw [TimedeltaJSON.serializeChars, splitBy_append_sep (hno (tdDays t)),
    splitBy_append_sep (hno (tdSeconds t)), splitBy_no_sep (hno (tdMicroseconds t))]

/-- The timedelta codec round trip: for every timedelta value (total
microseconds `t` whose normalized day count is within Python's
`±999999999` bound), deserializing the serialized string returns exactly
the original value. -/
theorem timedelta_roundtrip (t : Int) (hbound : (t / usPerDay).natAbs ≤ 999999999) :
    TimedeltaJSON.deserializeChars (TimedeltaJSON.serializeChars t)
      = .ok (.pytimedelta t) := by
  rw [TimedeltaJSON.deserializeChars, splitBy_serializeChars]
  simp only [List.mapM_cons, List.mapM_nil, pyToInt_intChars, bind, Except.bind, pure,
    Except.pure]
  have htot : tdArgsTotal [tdDays t, tdSeconds t, tdMicroseconds t] = t := by
    simp only [tdArgsTotal, List.getD, List.get?_cons_zero, List.get?_cons_succ,
      List.get?_nil, List.getElem?_cons_zero, List.getElem?_cons_succ, List.getElem?_nil,
      Option.getD_some, Option.getD_none]
    have := td_decompose t
    unfold usPerDay usPerSecond
    omega
  rw [pyTimedeltaOfArgs]
  simp only [List.length_cons, List.length_nil, htot]
  rw [if_neg (by omega), if_pos (by simpa using hbound)]

theorem natCharsPad_ne {sep : Char} (hsep : isDecDigit sep = false) (w n : Nat) :
    ∀ c ∈ natCharsPad w n, c ≠ sep :=
  fun _ hc he => natCharsPad_not_mem hsep w n (he ▸ hc)

theorem isoDate_chars (y m d : Nat) :
    ∀ c ∈ isoDate y m d, isDecDigit c = true ∨ c = '-' := by
  intro c hc
  rw [isoDate] at hc
  simp only [List.mem_append, List.mem_cons] at hc
  rcases hc with h1 | rfl | h2 | rfl | h3
  · exact Or.inl (natCharsPad_all_digits 4 y c h1)
  · exact Or.inr rfl
  · exact Or.inl (natCharsPad_all_digits 2 m c h2)
  · exact Or.inr rfl
  · exact Or.inl (natCharsPad_all_digits 2 d c h3)

theorem isoTimePart_chars (h mi s us : Nat) :
    ∀ c ∈ isoTimePart h mi s us, isDecDigit c = true ∨ c = ':' ∨ c = '.' := by
  intro c hc
  rw [isoTimePart] at hc
  by_cases hus : us = 0
  · rw [if_pos hus, List.append_nil] at hc
    simp only [List.mem_append, List.mem_cons] at hc
    rcases hc with h1 | rfl | h2 | rfl | h3
    · exact Or.inl (natCharsPad_all_digits 2 h c h1)
    · exact Or.inr (Or.inl rfl)
    · exact Or.inl (natCharsPad_all_digits 2 mi c h2)
    · exact Or.inr (Or.inl rfl)
    · exact Or.inl (natCharsPad_all_digits 2 s c h3)
  · rw [if_neg hus] at hc
    simp only [List.mem_append, List.mem_cons] at hc
    rcases hc with h1 | rfl | h2 | rfl | h3 | rfl | h4
    · exact Or.inl (natCharsPad_all_digits 2 h c h1)
    · exact Or.inr (Or.inl rfl)
    · exact Or.inl (natCharsPad_all_digits 2 mi c h2)
    · exact Or.inr (Or.inl rfl)
    · exact Or.inl (natCharsPad_all_digits 2 s c h3)
    · exact Or.inr (Or.inr rfl)
    · exact Or.inl (natCharsPad_all_digits 6 us c h4)

theorem parseIsoDate_iso (y m d : Nat) :
    parseIsoDateChars (isoDate y m d) = .ok (y, m, d) := by
  have hsplit : splitBy '-' (isoDate y m d)
      = [natCharsPad 4 y, natCharsPad 2 m, natCharsPad 2 d] := by
    rw [isoDate, splitBy_append_sep (natCharsPad_ne (by decide) 4 y),
      splitBy_append_sep (natCharsPad_ne (by decide) 2 m),
      splitBy_no_sep (natCharsPad_ne (by decide) 2 d)]
  rw [parseIsoDateChars, hsplit]
  simp only [readNatE, readNat_natCharsPad]
  rfl

theorem parseIsoTime_iso (h mi s us : Nat) (hus : us < 1000000) :
    parseIsoTimeChars (isoTimePart h mi s us) = .ok (h, mi, s, us) := by
  have htail : ∀ c ∈ natCharsPad 2 s ++ (if us = 0 then [] else '.' :: natCharsPad 6 us),
      c ≠ ':' := by
    intro c hc
    by_cases h0 : us = 0
    · rw [if_pos h0, List.append_nil] at hc
      exact natCharsPad_ne (by decide) 2 s c hc
    · rw [if_neg h0] at hc
      simp only [List.mem_append, List.mem_cons] at hc
      rcases hc with h1 | rfl | h2
      · exact natCharsPad_ne (by decide) 2 s c h1
      · decide
      · exact natCharsPad_ne (by decide) 6 us c h2
  have hsplit : splitBy ':' (isoTimePart h mi s us)
      = [natCharsPad 2 h, natCharsPad 2 mi,
          natCharsPad 2 s ++ (if us = 0 then [] else '.' :: natCharsPad 6 us)] := by
    rw [isoTimePart, splitBy_append_sep (natCharsPad_ne (by decide) 2 h),
      splitBy_append_sep (natCharsPad_ne (by decide) 2 mi), splitBy_no_sep htail]
  rw [parseIsoTimeChars, hsplit]
  by_cases h0 : us = 0
  · have hdot : splitBy '.' (natCharsPad 2 s ++ (if us = 0 then [] else '.' :: natCharsPad 6 us))
        = [natCharsPad 2 s] := by
      rw [if_pos h0, List.append_nil, splitBy_no_sep (natCharsPad_ne (by decide) 2 s)]
    simp only [hdot, readNatE, readNat_natCharsPad]
    subst h0
    rfl
  · have hdot : splitBy '.' (natCharsPad 2 s ++ (if us = 0 then [] else '.' :: natCharsPad 6 us))
        = [natCharsPad 2 s, natCharsPad 6 us] := by
      rw [if_neg h0, splitBy_append_sep (natCharsPad_ne (by decide) 2 s),
        splitBy_no_sep (natCharsPad_ne (by decide) 6 us)]
    have hlen : (natCharsPad 6 us).length = 6 :=
      natCharsPad_length (natChars_length_le (by omega) hus)
    have htake : (natCharsPad 6 us).take 6 = natCharsPad 6 us := by
      apply List.take_of_length_le
      omega
    have hfrac : parseFraction (natCharsPad 6 us) = .ok us := by
      simp only [parseFraction, htake, hlen, readNat_natCharsPad]
      norm_num
    simp only [hdot, readNatE, readNat_natCharsPad, hfrac]
    rfl

/-- Round trip for a `date`: `dateutil` completes it to the `datetime` at
midnight of that day, never a `date`. -/
theorem dateutil_parse_isoDate (y m d : Nat) :
    dateutil_parse (isoDate y m d) = .ok (.pydatetime y m d 0 0 0 0) := by
  have hno : ∀ c ∈ isoDate y m d, c ≠ 'T' := by
    intro c hc he
    rcases isoDate_chars y m d c hc with hd | hm
    · subst he; exact absurd hd (by decide)
    · subst he; exact absurd hm (by decide)
  rw [dateutil_parse, splitBy_no_sep hno]
  simp only [parseIsoDate_iso]
  rfl

/-- Round trip for a naive `datetime` with a valid microsecond field. -/
theorem dateutil_parse_isoDatetime (y m d h mi s us : Nat) (hus : us < 1000000) :
    dateutil_parse (isoDatetime y m d h mi s us) = .ok (.pydatetime y m d h mi s us) := by
  have hnoD : ∀ c ∈ isoDate y m d, c ≠ 'T' := by
    intro c hc he
    rcases isoDate_chars y m d c hc with hd | hm
    · subst he; exact absurd hd (by decide)
    · subst he; exact absurd hm (by decide)
  have hnoT : ∀ c ∈ isoTimePart h mi s us, c ≠ 'T' := by
    intro c hc he
    rcases isoTimePart_chars h mi s us c hc with hd | hc2 | hc3
    · subst he; exact absurd hd (by decide)
    · subst he; exact absurd hc2 (by decide)
    · subst he; exact absurd hc3 (by decide)
  rw [dateutil_parse, isoDatetime, splitBy_append_sep hnoD, splitBy_no_sep hnoT]
  simp only [parseIsoDate_iso, parseIsoTime_iso h mi s us hus]
  rfl

/-! ### Infrastructure lemmas -/

theorem except_bind_ok {α β : Type} (a : α) (f : α → Except PyErr β) :
    (Except.ok a >>= f) = f a := rfl

theorem except_bind_err {α β : Type} (e : PyErr) (f : α → Except PyErr β) :
    ((Except.error e : Except PyErr α) >>= f) = .error e := rfl

/-- Strong induction on the size of a value tree. -/
theorem pyval_size_ind (P : PyVal → Prop)
    (h : ∀ v, (∀ w, sizeOf w < sizeOf v → P w) → P v) : ∀ v, P v := by
  have aux : ∀ n v, sizeOf v < n → P v := by
    intro n
    induction n with
    | zero => intro v hv; omega
    | succ n ih => intro v _; exact h v (fun w hw => ih w (by omega))
  exact fun v => aux (sizeOf v + 1) v (by omega)

theorem sizeOf_mem_list {x : PyVal} {xs : List PyVal} (hx : x ∈ xs) :
    sizeOf x < sizeOf (PyVal.pylist xs) := by
  have h1 := List.sizeOf_lt_of_mem hx
  have h2 : sizeOf (PyVal.pylist xs) = 1 + sizeOf xs := by simp
  omega

theorem sizeOf_mem_pairs {k : Key} {v : PyVal} {kvs : List (Key × PyVal)}
    (hkv : (k, v) ∈ kvs) : sizeOf v < sizeOf (PyVal.pydict kvs) := by
  have h1 := List.sizeOf_lt_of_mem hkv
  have h2 : sizeOf (k, v) = 1 + sizeOf k + sizeOf v := by simp
  have h3 : sizeOf (PyVal.pydict kvs) = 1 + sizeOf kvs := by simp
  omega

/-- The decode hook leaves a plain value untouched. -/
theorem deserialItem_plain {v : PyVal} (hp : plainPy v = true) :
    deserialItem v = .ok v := by
  match v with
  | .pynone | .pybool _ | .pyint _ | .pystr _ | .pylist _ => rfl
  | .pydate .. | .pydatetime .. | .pytimedelta _ | .pyframe _ | .pyforeign _ =>
    simp [plainPy] at hp
  | .pydict inner =>
    obtain ⟨hl, -⟩ : (lookupKey inner "__type__".toList).isNone = true
        ∧ plainPyPairs inner = true := by
      simpa [plainPy] using hp
    have hlook : lookupKey inner "__type__".toList = none :=
      Option.isNone_iff_eq_none.mp hl
    simp only [deserialItem, hlook]

theorem deserialItems_plain : ∀ {kvs : List (Key × PyVal)}, plainPyPairs kvs = true →
    deserialItems kvs = .ok kvs := by
  intro kvs
  induction kvs with
  | nil => intro _; rfl
  | cons kv rest ih =>
    obtain ⟨k, v⟩ := kv
    intro hp
    obtain ⟨hpv, hprest⟩ : plainPy v = true ∧ plainPyPairs rest = true := by
      simpa [plainPyPairs] using hp
    simp only [deserialItems, deserialItem_plain hpv, ih hprest, except_bind_ok]

/-- The hook passes a plain mapping through unchanged. -/
theorem json_deserial_plainDict {kvs : List (Key × PyVal)}
    (hp : plainPyPairs kvs = true) : json_deserial (.pydict kvs) = .ok (.pydict kvs) := by
  simp only [json_deserial, deserialItems_plain hp, except_bind_ok]

/-- Plain data encodes without the `default` hook and decodes back to
itself: `loads(dumps(v)) == v` with both hooks installed. -/
theorem plain_roundtrip : ∀ v, plainPy v = true →
    ∃ j, encodeTree v = .ok j ∧ decodeTree j = .ok v := by
  intro v0
  induction v0 using pyval_size_ind with
  | h v ih =>
    intro hp
    match v with
    | .pynone => exact ⟨.jnull, rfl, rfl⟩
    | .pybool b => exact ⟨.jbool b, rfl, rfl⟩
    | .pyint n => exact ⟨.jnum n, rfl, rfl⟩
    | .pystr s => exact ⟨.jstr s, rfl, rfl⟩
    | .pydate .. | .pydatetime .. | .pytimedelta _ | .pyframe _ | .pyforeign _ =>
      simp [plainPy] at hp
    | .pylist xs =>
      have hxs : plainPyList xs = true := by simpa [plainPy] using hp
      have hlist : ∀ ys : List PyVal, (∀ x ∈ ys, x ∈ xs) → plainPyList ys = true →
          ∃ js, encodeTreeList ys = .ok js ∧ decodeTreeList js = .ok ys := by
        intro ys
        induction ys with
        | nil => intro _ _; exact ⟨[], rfl, rfl⟩
        | cons x rest ihl =>
          intro hsub hplist
          obtain ⟨hpx, hprest⟩ : plainPy x = true ∧ plainPyList rest = true := by
            simpa [plainPyList] using hplist
          obtain ⟨jx, hex, hdx⟩ :=
            ih x (sizeOf_mem_list (hsub x (List.mem_cons_self x rest))) hpx
          obtain ⟨js, hes, hds⟩ := ihl (fun z hz => hsub z (List.mem_cons_of_mem x hz)) hprest
          refine ⟨jx :: js, ?_, ?_⟩
          · simp only [encodeTreeList, hex, hes, except_bind_ok]
          · simp only [decodeTreeList, hdx, hds, except_bind_ok]
      obtain ⟨js, hes, hds⟩ := hlist xs (fun _ h => h) hxs
      refine ⟨.jarr js, ?_, ?_⟩
      · simp only [encodeTree, hes, except_bind_ok]
      · simp only [decodeTree, hds, except_bind_ok]
    | .pydict kvs =>
      obtain ⟨-, hpairs⟩ : (lookupKey kvs "__type__".toList).isNone = true
          ∧ plainPyPairs kvs = true := by
        simpa [plainPy] using hp
      have hpairs_rt : ∀ ps : List (Key × PyVal), (∀ kv ∈ ps, kv ∈ kvs) →
          plainPyPairs ps = true →
          ∃ js, encodeTreePairs ps = .ok js ∧ decodeTreePairs js = .ok ps := by
        intro ps
        induction ps with
        | nil => intro _ _; exact ⟨[], rfl, rfl⟩
        | cons kv rest ihp =>
          obtain ⟨k, w⟩ := kv
          intro hsub hpp
          obtain ⟨hpv, hprest⟩ : plainPy w = true ∧ plainPyPairs rest = true := by
            simpa [plainPyPairs] using hpp
          obtain ⟨jv, hev, hdv⟩ :=
            ih w (sizeOf_mem_pairs (hsub (k, w) (List.mem_cons_self _ _))) hpv
          obtain ⟨js, hes, hds⟩ := ihp (fun z hz => hsub z (List.mem_cons_of_mem _ hz)) hprest
          refine ⟨(k, jv) :: js, ?_, ?_⟩
          · simp only [encodeTreePairs, hev, hes, except_bind_ok]
          · simp only [decodeTreePairs, hdv, hds, except_bind_ok]
      obtain ⟨js, hes, hds⟩ := hpairs_rt kvs (fun _ h => h) hpairs
      refine ⟨.jobj js, ?_, ?_⟩
      · simp only [encodeTree, hes, except_bind_ok]
      · simp only [decodeTree, hds, except_bind_ok, json_deserial_plainDict hpairs]

/-- Every registered value encodes; only an unregistered class can make
the dump fail. -/
theorem encode_ok_of_no_foreign : ∀ v, hasForeign v = false →
    ∃ j, encodeTree v = .ok j := by
  intro v0
  induction v0 using pyval_size_ind with
  | h v ih =>
    intro hf
    match v with
    | .pynone => exact ⟨.jnull, rfl⟩
    | .pybool b => exact ⟨.jbool b, rfl⟩
    | .pyint n => exact ⟨.jnum n, rfl⟩
    | .pystr s => exact ⟨.jstr s, rfl⟩
    | .pydate y m d => exact ⟨_, rfl⟩
    | .pydatetime y m d h mi s us => exact ⟨_, rfl⟩
    | .pytimedelta t => exact ⟨_, rfl⟩
    | .pyframe src => exact ⟨_, rfl⟩
    | .pyforeign cls => simp [hasForeign] at hf
    | .pylist xs =>
      have hxs : hasForeignList xs = false := by simpa [hasForeign] using hf
      have hlist : ∀ ys : List PyVal, (∀ x ∈ ys, x ∈ xs) → hasForeignList ys = false →
          ∃ js, encodeTreeList ys = .ok js := by
        intro ys
        induction ys with
        | nil => intro _ _; exact ⟨[], rfl⟩
        | cons x rest ihl =>
          intro hsub hfl
          obtain ⟨hfx, hfrest⟩ : hasForeign x = false ∧ hasForeignList rest = false := by
            simpa [hasForeignList] using hfl
          obtain ⟨jx, hex⟩ := ih x (sizeOf_mem_list (hsub x (List.mem_cons_self x rest))) hfx
          obtain ⟨js, hes⟩ := ihl (fun z hz => hsub z (List.mem_cons_of_mem x hz)) hfrest
          exact ⟨jx :: js, by simp only [encodeTreeList, hex, hes, except_bind_ok]⟩
      obtain ⟨js, hes⟩ := hlist xs (fun _ h => h) hxs
      exact ⟨.jarr js, by simp only [encodeTree, hes, except_bind_ok]⟩
    | .pydict kvs =>
      have hkvs : hasForeignPairs kvs = false := by simpa [hasForeign] using hf
      have hpairs : ∀ ps : List (Key × PyVal), (∀ kv ∈ ps, kv ∈ kvs) →
          hasForeignPairs ps = false → ∃ js, encodeTreePairs ps = .ok js := by
        intro ps
        induction ps with
        | nil => intro _ _; exact ⟨[], rfl⟩
        | cons kv rest ihp =>
          obtain ⟨k, w⟩ := kv
          intro hsub hfp
          obtain ⟨hfv, hfrest⟩ : hasForeign w = false ∧ hasForeignPairs rest = false := by
            simpa [hasForeignPairs] using hfp
          obtain ⟨jv, hev⟩ :=
            ih w (sizeOf_mem_pairs (hsub (k, w) (List.mem_cons_self _ _))) hfv
          obtain ⟨js, hes⟩ := ihp (fun z hz => hsub z (List.mem_cons_of_mem _ hz)) hfrest
          exact ⟨(k, jv) :: js, by simp only [encodeTreePairs, hev, hes, except_bind_ok]⟩
      obtain ⟨js, hes⟩ := hpairs kvs (fun _ h => h) hkvs
      exact ⟨.jobj js, by simp only [encodeTree, hes, except_bind_ok]⟩

/-- A tree containing a value of an unregistered class fails to dump, and
the failure is the `KeyError` of the registry lookup for some such class. -/
theorem encode_err_of_foreign : ∀ v, hasForeign v = true →
    ∃ cls, encodeTree v = .error (.keyError cls) := by
  intro v0
  induction v0 using pyval_size_ind with
  | h v ih =>
    intro hf
    match v with
    | .pynone | .pybool _ | .pyint _ | .pystr _ | .pydate .. | .pydatetime ..
    | .pytimedelta _ | .pyframe _ =>
      simp [hasForeign] at hf
    | .pyforeign cls => exact ⟨cls, rfl⟩
    | .pylist xs =>
      have hxs : hasForeignList xs = true := by simpa [hasForeign] using hf
      have hlist : ∀ ys : List PyVal, (∀ x ∈ ys, x ∈ xs) → hasForeignList ys = true →
          ∃ cls, encodeTreeList ys = .error (.keyError cls) := by
        intro ys
        induction ys with
        | nil => intro _ h; simp [hasForeignList] at h
        | cons x rest ihl =>
          intro hsub hfl
          have hx_mem := sizeOf_mem_list (hsub x (List.mem_cons_self x rest))
          by_cases hfx : hasForeign x = true
          · obtain ⟨cls, hex⟩ := ih x hx_mem hfx
            exact ⟨cls, by simp only [encodeTreeList, hex, except_bind_err]⟩
          · have hfx0 : hasForeign x = false := by revert hfx; cases hasForeign x <;> simp
            have hfrest : hasForeignList rest = true := by
              revert hfl
              simp [hasForeignList, hfx0]
            obtain ⟨jx2, hex2⟩ := encode_ok_of_no_foreign x hfx0
            obtain ⟨cls, hes⟩ := ihl (fun z hz => hsub z (List.mem_cons_of_mem x hz)) hfrest
            exact ⟨cls, by simp only [encodeTreeList, hex2, hes, except_bind_ok,
              except_bind_err]⟩
      obtain ⟨cls, hes⟩ := hlist xs (fun _ h => h) hxs
      exact ⟨cls, by simp only [encodeTree, hes, except_bind_err]⟩
    | .pydict kvs =>
      have hkvs : hasForeignPairs kvs = true := by simpa [hasForeign] using hf
      have hpairs : ∀ ps : List (Key × PyVal), (∀ kv ∈ ps, kv ∈ kvs) →
          hasForeignPairs ps = true →
          ∃ cls, encodeTreePairs ps = .error (.keyError cls) := by
        intro ps
        induction ps with
        | nil => intro _ h; simp [hasForeignPairs] at h
        | cons kv rest ihp =>
          obtain ⟨k, w⟩ := kv
          intro hsub hfp
          have hw_mem := sizeOf_mem_pairs (hsub (k, w) (List.mem_cons_self _ _))
          by_cases hfw : hasForeign w = true
          · obtain ⟨cls, hew⟩ := ih w hw_mem hfw
            exact ⟨cls, by simp only [encodeTreePairs, hew, except_bind_err]⟩
          · have hfw0 : hasForeign w = false := by revert hfw; cases hasForeign w <;> simp
            have hfrest : hasForeignPairs rest = true := by
              revert hfp
              simp [hasForeignPairs, hfw0]
            obtain ⟨jw, hew⟩ := encode_ok_of_no_foreign w hfw0
            obtain ⟨cls, hes⟩ := ihp (fun z hz => hsub z (List.mem_cons_of_mem _ hz)) hfrest
            exact ⟨cls, by simp only [encodeTreePairs, hew, hes, except_bind_ok,
              except_bind_err]⟩
      obtain ⟨cls, hes⟩ := hpairs kvs (fun _ h => h) hkvs
      exact ⟨cls, by simp only [encodeTree, hes, except_bind_err]⟩

/-! ### Shallow-merge lemmas -/

theorem lookup_setKey {α : Type} : ∀ (E : List (Key × α)) (k : Key) (v : α) (k2 : Key),
    lookupKey (setKey E k v) k2 = if k2 = k then some v else lookupKey E k2 := by
  intro E
  induction E with
  | nil =>
    intro k v k2
    by_cases h : k2 = k
    · subst h; simp [setKey, lookupKey]
    · simp [setKey, lookupKey, h, Ne.symm h]
  | cons p rest ih =>
    obtain ⟨k0, v0⟩ := p
    intro k v k2
    by_cases hk0 : k0 = k
    · subst hk0
      by_cases h2 : k2 = k0
      · subst h2; simp [setKey, lookupKey]
      · simp [setKey, lookupKey, h2, Ne.symm h2]
    · by_cases h2 : k2 = k
      · subst h2
        have hne : k0 ≠ k2 := hk0
        simp [setKey, lookupKey, hk0, hne, ih]
      · by_cases h3 : k0 = k2
        · subst h3
          simp [setKey, lookupKey, hk0, h2]
        · simp [setKey, lookupKey, hk0, h2, h3, ih]

theorem lookup_none_of_not_mem_keys {α : Type} :
    ∀ {N : List (Key × α)} {k : Key}, k ∉ N.map Prod.fst → lookupKey N k = none := by
  intro N
  induction N with
  | nil => intro k _; rfl
  | cons p rest ih =>
    obtain ⟨k0, v0⟩ := p
    intro k hk
    simp only [List.map_cons, List.mem_cons] at hk
    push_neg at hk
    have hne : ¬ k0 = k := fun h => hk.1 h.symm
    simp [lookupKey, hne, ih hk.2]

/-- The shallow-merge law of `dict.update`: a key present in the update
wins, any other key keeps its value from the base. -/
theorem lookup_pyDictUpdate : ∀ (N : List (Key × PyVal)) (E : List (Key × PyVal)),
    (N.map Prod.fst).Nodup → ∀ k : Key,
    lookupKey (pyDictUpdate E N) k
      = (lookupKey N k).orElse (fun _ => lookupKey E k) := by
  intro N
  induction N with
  | nil =>
    intro E _ k
    rfl
  | cons p rest ih =>
    obtain ⟨k0, v0⟩ := p
    intro E hN k
    rw [List.map_cons, List.nodup_cons] at hN
    have hstep : pyDictUpdate E ((k0, v0) :: rest) = pyDictUpdate (setKey E k0 v0) rest := rfl
    rw [hstep, ih (setKey E k0 v0) hN.2 k]
    by_cases hk : k = k0
    · subst hk
      rw [lookup_none_of_not_mem_keys hN.1, lookup_setKey]
      simp [lookupKey, Option.orElse]
    · rw [lookup_setKey]
      simp [lookupKey, hk, Ne.symm hk, Option.orElse]

theorem plainPyPairs_setKey : ∀ {E : List (Key × PyVal)} {k : Key} {v : PyVal},
    plainPyPairs E = true → plainPy v = true → plainPyPairs (setKey E k v) = true := by
  intro E
  induction E with
  | nil => intro k v _ hv; simpa [setKey, plainPyPairs] using hv
  | cons p rest ih =>
    obtain ⟨k0, v0⟩ := p
    intro k v hE hv
    obtain ⟨h1, h2⟩ : plainPy v0 = true ∧ plainPyPairs rest = true := by
      simpa [plainPyPairs] using hE
    by_cases hk : k0 = k
    · simp [setKey, hk, plainPyPairs, hv, h2]
    · simp [setKey, hk, plainPyPairs, h1, ih h2 hv]

theorem plainPyPairs_update : ∀ (N : List (Key × PyVal)) (E : List (Key × PyVal)),
    plainPyPairs E = true → plainPyPairs N = true →
    plainPyPairs (pyDictUpdate E N) = true := by
  intro N
  induction N with
  | nil => intro E hE _; exact hE
  | cons p rest ih =>
    obtain ⟨k0, v0⟩ := p
    intro E hE hN
    obtain ⟨h1, h2⟩ : plainPy v0 = true ∧ plainPyPairs rest = true := by
      simpa [plainPyPairs] using hN
    exact ih (setKey E k0 v0) (plainPyPairs_setKey hE h1) h2

/-- A merge of two plain mappings (update keys duplicate-free) is plain. -/
theorem plainPy_update {E N : List (Key × PyVal)}
    (hE : plainPy (.pydict E) = true) (hN : plainPy (.pydict N) = true)
    (hnodup : (N.map Prod.fst).Nodup) :
    plainPy (.pydict (pyDictUpdate E N)) = true := by
  obtain ⟨hEl, hEp⟩ : (lookupKey E "__type__".toList).isNone = true
      ∧ plainPyPairs E = true := by simpa [plainPy] using hE
  obtain ⟨hNl, hNp⟩ : (lookupKey N "__type__".toList).isNone = true
      ∧ plainPyPairs N = true := by simpa [plainPy] using hN
  have hmerge := lookup_pyDictUpdate N E hnodup "__type__".toList
  rw [Option.isNone_iff_eq_none.mp hNl, Option.isNone_iff_eq_none.mp hEl] at hmerge
  simp only [plainPy, Bool.and_eq_true]
  constructor
  · rw [hmerge]; rfl
  · exact plainPyPairs_update N E hEp hNp

/-! ### Envelope decode lemmas -/

/-- The hook on the Envelope mapping itself: its two values are strings,
not dicts, so the Envelope passes through its own hook unchanged. -/
theorem json_deserial_envelope (tag p : List Char) :
    json_deserial (.pydict [("__type__".toList, .pystr tag), ("repr".toList, .pystr p)])
      = .ok (.pydict [("__type__".toList, .pystr tag), ("repr".toList, .pystr p)]) := rfl

/-- Decoding a bare Envelope object yields the Envelope dict unchanged —
the hook never rewrites the node it is invoked on, only its values. -/
theorem decodeTree_envelope (tag p : List Char) :
    decodeTree (.jobj [("__type__".toList, .jstr tag), ("repr".toList, .jstr p)])
      = .ok (.pydict [("__type__".toList, .pystr tag), ("repr".toList, .pystr p)]) := rfl

/-- The hook on a binding whose value is an Envelope dict: resolve the tag
among the serializers, or fail with `TypeError` chained from the lookup
`KeyError`. -/
theorem deserialItem_envelope (tag : List Char) (p : PyVal) :
    deserialItem (.pydict [("__type__".toList, .pystr tag), ("repr".toList, p)])
      = (if tag ∈ serializerNames then
          (match serializerDecode tag p with
           | .ok w => .ok w
           | .error e =>
             .error (match e with
               | .keyError k2 => .typeErrorFrom (.keyError k2)
               | _ => e))
        else .error (.typeErrorFrom (.keyError tag))) := rfl

/-- Loading a document whose top-level mapping binds a key to an Envelope
with an unregistered tag fails with the raw `TypeError` (chained from the
lookup `KeyError`) — `load_json_file` does not wrap it. -/
theorem load_nested_unregistered (k tag p : List Char) (htag : tag ∉ serializerNames) :
    load_json_file (.stored (.docText (.jobj
        [(k, .jobj [("__type__".toList, .jstr tag), ("repr".toList, .jstr p)])])))
      = .error (.typeErrorFrom (.keyError tag)) := by
  have hpairs : decodeTreePairs
      [(k, .jobj [("__type__".toList, .jstr tag), ("repr".toList, .jstr p)])]
      = .ok [(k, .pydict [("__type__".toList, .pystr tag), ("repr".toList, .pystr p)])] := by
    simp only [decodeTreePairs, decodeTree_envelope, except_bind_ok]
  have hitem : deserialItem
      (.pydict [("__type__".toList, .pystr tag), ("repr".toList, .pystr p)])
      = .error (.typeErrorFrom (.keyError tag)) := by
    rw [deserialItem_envelope, if_neg htag]
  have hdec : decodeTree (.jobj
      [(k, .jobj [("__type__".toList, .jstr tag), ("repr".toList, .jstr p)])])
      = .error (.typeErrorFrom (.keyError tag)) := by
    simp only [decodeTree, hpairs, except_bind_ok, json_deserial, deserialItems, hitem,
      except_bind_err]
  simp only [load_json_file, from_json_str, hdec]
  rfl

/-- Decoding a mapping that binds a key to an Envelope with a registered
tag replaces that binding's value with the handler's decoded value. -/
theorem decode_nested_registered (k tag p : List Char) (v : PyVal)
    (htag : tag ∈ serializerNames) (hdec : serializerDecode tag (.pystr p) = .ok v) :
    decodeTree (.jobj
        [(k, .jobj [("__type__".toList, .jstr tag), ("repr".toList, .jstr p)])])
      = .ok (.pydict [(k, v)]) := by
  have hpairs : decodeTreePairs
      [(k, .jobj [("__type__".toList, .jstr tag), ("repr".toList, .jstr p)])]
      = .ok [(k, .pydict [("__type__".toList, .pystr tag), ("repr".toList, .pystr p)])] := by
    simp only [decodeTreePairs, decodeTree_envelope, except_bind_ok]
  have hitem : deserialItem
      (.pydict [("__type__".toList, .pystr tag), ("repr".toList, .pystr p)])
      = .ok v := by
    rw [deserialItem_envelope, if_pos htag, hdec]
  simp only [decodeTree, hpairs, except_bind_ok, json_deserial, deserialItems, hitem,
    except_bind_err]

/-- The hook leaves any non-dict value alone. -/
theorem deserialItem_nondict {v : PyVal} (h : isDictB v = false) :
    deserialItem v = .ok v := by
  cases v <;> first | rfl | simp [isDictB] at h

theorem deserialItems_nondict : ∀ {kvs : List (Key × PyVal)},
    (∀ kv ∈ kvs, isDictB kv.2 = false) → deserialItems kvs = .ok kvs := by
  intro kvs
  induction kvs with
  | nil => intro _; rfl
  | cons kv rest ih =>
    intro h
    simp only [deserialItems,
      deserialItem_nondict (h kv (List.mem_cons_self kv rest)),
      ih (fun z hz => h z (List.mem_cons_of_mem kv hz)), except_bind_ok]

/-- The hook on a binding whose value is a dict with `"__type__"` but no
`"repr"`: both pops happen before the `try` block, so the second one
raises a bare `KeyError`. -/
theorem deserialItem_no_repr {inner : List (Key × PyVal)}
    (hty : (lookupKey inner "__type__".toList).isSome = true)
    (hrepr : lookupKey (removeKey inner "__type__".toList) "repr".toList = none) :
    deserialItem (.pydict inner) = .error (.keyError "repr".toList) := by
  obtain ⟨rt, hrt⟩ := Option.isSome_iff_exists.mp hty
  simp only [deserialItem, hrt, hrepr]

/-! ### Comma-joined integer lists (the timedelta payload family) -/

theorem splitBy_commaJoinInts : ∀ fields : List Int, fields ≠ [] →
    splitBy ',' (commaJoinInts fields) = fields.map intChars := by
  have hno : ∀ i : Int, ∀ c ∈ intChars i, c ≠ ',' := by
    intro i c hc hceq
    exact intChars_not_mem (by decide) (by decide) i (hceq ▸ hc)
  intro fields
  induction fields with
  | nil => intro h; exact absurd rfl h
  | cons i rest ih =>
    intro _
    match rest with
    | [] =>
      rw [show commaJoinInts [i] = intChars i from rfl, splitBy_no_sep (hno i)]
      rfl
    | j :: rest2 =>
      rw [show commaJoinInts (i :: j :: rest2)
          = intChars i ++ ',' :: commaJoinInts (j :: rest2) from rfl,
        splitBy_append_sep (hno i), ih (by simp)]
      rfl

theorem mapM_pyToInt_intChars : ∀ fields : List Int,
    (fields.map intChars).mapM pyToInt = .ok fields := by
  intro fields
  induction fields with
  | nil => rfl
  | cons i rest ih =>
    simp only [List.map_cons, List.mapM_cons, pyToInt_intChars, ih, bind, Except.bind,
      pure, Except.pure]

/-- Decoding a mapping that binds a key to an Envelope with an
unregistered tag fails with `TypeError` chained from the lookup
`KeyError`. -/
theorem decode_nested_unregistered (k tag p : List Char) (htag : tag ∉ serializerNames) :
    decodeTree (.jobj
        [(k, .jobj [("__type__".toList, .jstr tag), ("repr".toList, .jstr p)])])
      = .error (.typeErrorFrom (.keyError tag)) := by
  have hpairs : decodeTreePairs
      [(k, .jobj [("__type__".toList, .jstr tag), ("repr".toList, .jstr p)])]
      = .ok [(k, .pydict [("__type__".toList, .pystr tag), ("repr".toList, .pystr p)])] := by
    simp only [decodeTreePairs, decodeTree_envelope, except_bind_ok]
  have hitem : deserialItem
      (.pydict [("__type__".toList, .pystr tag), ("repr".toList, .pystr p)])
      = .error (.typeErrorFrom (.keyError tag)) := by
    rw [deserialItem_envelope, if_neg htag]
  simp only [decodeTree, hpairs, except_bind_ok, json_deserial, deserialItems, hitem,
    except_bind_err]

/-! ### The claims -/

/-- C1 (corrected): the round trip `deserialize(serialize(v)) == v` holds
for every valid timedelta value and for every naive datetime value, but
for a `date` value — a type the datetime handler also claims — the round
trip yields the `datetime` at midnight of that day instead of the original
`date`. -/
theorem C1_roundtrip_amended :
    (∀ t : Int, (t / usPerDay).natAbs ≤ 999999999 →
      handlerRoundTrip TimedeltaJSON.serializeVal TimedeltaJSON.deserializeVal
        (.pytimedelta t) = .ok (.pytimedelta t))
    ∧ (∀ y m d h mi s us : Nat, us < 1000000 →
      handlerRoundTrip DatetimeJSON.serializeVal DatetimeJSON.deserializeVal
        (.pydatetime y m d h mi s us) = .ok (.pydatetime y m d h mi s us))
    ∧ (∀ y m d : Nat,
      handlerRoundTrip DatetimeJSON.serializeVal DatetimeJSON.deserializeVal
        (.pydate y m d) = .ok (.pydatetime y m d 0 0 0 0)) := by
  refine ⟨?_, ?_, ?_⟩
  · intro t hb
    exact timedelta_roundtrip t hb
  · intro y m d h mi s us hus
    exact dateutil_parse_isoDatetime y m d h mi s us hus
  · intro y m d
    exact dateutil_parse_isoDate y m d

/-- C1 counterexample: for the `date` value 2020-01-02, which the datetime
handler claims, the round trip returns the datetime 2020-01-02T00:00:00,
and Python `==` between a `date` and a `datetime` is `False` (in both
orders), so `deserialize(serialize(v)) == v` fails. -/
theorem C1_date_counterexample :
    handlerRoundTrip DatetimeJSON.serializeVal DatetimeJSON.deserializeVal
        (.pydate 2020 1 2) = .ok (.pydatetime 2020 1 2 0 0 0 0)
    ∧ pyEqB (.pydate 2020 1 2) (.pydatetime 2020 1 2 0 0 0 0) = false
    ∧ pyEqB (.pydatetime 2020 1 2 0 0 0 0) (.pydate 2020 1 2) = false :=
  ⟨rfl, rfl, rfl⟩

/-- C1 witness: the amended round trip at concrete inputs — a timedelta of
1 day 1 hour 1 minute 1 second 7 microseconds, a datetime with a non-zero
microsecond field, and a date (which comes back as midnight). -/
theorem C1_roundtrip_amended_witness :
    handlerRoundTrip TimedeltaJSON.serializeVal TimedeltaJSON.deserializeVal
        (.pytimedelta 90061000007) = .ok (.pytimedelta 90061000007)
    ∧ handlerRoundTrip DatetimeJSON.serializeVal DatetimeJSON.deserializeVal
        (.pydatetime 2021 7 16 11 29 5 123456) = .ok (.pydatetime 2021 7 16 11 29 5 123456)
    ∧ handlerRoundTrip DatetimeJSON.serializeVal DatetimeJSON.deserializeVal
        (.pydate 1999 12 31) = .ok (.pydatetime 1999 12 31 0 0 0 0) :=
  ⟨C1_roundtrip_amended.1 90061000007 (by decide),
   C1_roundtrip_amended.2.1 2021 7 16 11 29 5 123456 (by decide),
   C1_roundtrip_amended.2.2 1999 12 31⟩

/-- C2 counterexample: with an existing file holding `{"a": 1}`, saving a
tree containing a value of the unregistered class `TGraph` does raise the
registry lookup `KeyError`, but the target file is not left with its prior
contents: `open("w")` already truncated it, and it ends as a truncated
partial document. -/
theorem C2_file_truncated_counterexample :
    update_json_file (.stored (.docText (.jobj [("a".toList, .jnum 1)])))
        (.pydict [("k".toList, .pyforeign "TGraph".toList)])
      = (.stored .truncatedText, .error (.keyError "TGraph".toList))
    ∧ (FileState.stored .truncatedText)
      ≠ .stored (.docText (.jobj [("a".toList, .jnum 1)])) :=
  ⟨rfl, by simp⟩

/-- C2 (corrected): saving a tree containing a value of an unregistered
class fails with the `KeyError` of the `types_to_names` lookup (the
intended `TypeError` branch is unreachable dead code), but the
previously-existing file is NOT left untouched: the target is truncated on
open, the aborted dump leaves a partial document that no longer parses,
and the resulting file state differs from every prior document. -/
theorem C2_truncating_save_amended (jE : JVal) (E N : List (Key × PyVal))
    (hload : decodeTree jE = .ok (.pydict E))
    (hforeign : hasForeign (.pydict (pyDictUpdate E N)) = true) :
    ∃ cls, update_json_file (.stored (.docText jE)) (.pydict N)
        = (.stored .truncatedText, .error (.keyError cls))
      ∧ load_json_file (.stored .truncatedText)
        = .error (.jsonDeserializeError (.valueError "JSONDecodeError".toList))
      ∧ (FileState.stored .truncatedText) ≠ .stored (.docText jE) := by
  obtain ⟨cls, herr⟩ := encode_err_of_foreign _ hforeign
  refine ⟨cls, ?_, rfl, by simp⟩
  simp only [update_json_file, load_json_file, from_json_str, hload, pyUpdate,
    dump_to_json_file, herr]

/-- C2 witness: the amended statement at the counterexample's input. -/
theorem C2_truncating_save_amended_witness :
    ∃ cls, update_json_file (.stored (.docText (.jobj [("a".toList, .jnum 1)])))
        (.pydict [("k".toList, .pyforeign "TGraph".toList)])
        = (.stored .truncatedText, .error (.keyError cls))
      ∧ load_json_file (.stored .truncatedText)
        = .error (.jsonDeserializeError (.valueError "JSONDecodeError".toList))
      ∧ (FileState.stored .truncatedText) ≠ .stored (.docText (.jobj [("a".toList, .jnum 1)])) :=
  C2_truncating_save_amended (.jobj [("a".toList, .jnum 1)])
    [("a".toList, .pyint 1)] [("k".toList, .pyforeign "TGraph".toList)] rfl rfl

/-- C3 counterexample: loading the spec's own hand-crafted document
`{"__type__": "not_a_handler", "repr": "x"}` raises nothing at all — the
hook only inspects the values of a mapping, so a top-level Envelope is
passed through undecoded rather than failing with `DeserializeError`. -/
theorem C3_top_level_counterexample :
    load_json_file (.stored (.docText (.jobj
        [("__type__".toList, .jstr "not_a_handler".toList),
         ("repr".toList, .jstr "x".toList)])))
      = .ok (.pydict
        [("__type__".toList, .pystr "not_a_handler".toList),
         ("repr".toList, .pystr "x".toList)]) := rfl

/-- C3 (corrected): when the unresolvable-tag Envelope occurs as the value
of a key in a mapping, the load fails — but with a raw `TypeError` chained
from the lookup `KeyError`, not with `JSONDeserializeError`:
`load_json_file` only wraps `OSError` and `ValueError`. -/
theorem C3_unknown_tag_amended (k tag p : List Char) (htag : tag ∉ serializerNames) :
    load_json_file (.stored (.docText (.jobj
        [(k, .jobj [("__type__".toList, .jstr tag), ("repr".toList, .jstr p)])])))
      = .error (.typeErrorFrom (.keyError tag))
    ∧ ∀ c : PyErr, (PyErr.typeErrorFrom (.keyError tag)) ≠ .jsonDeserializeError c :=
  ⟨load_nested_unregistered k tag p htag, fun _ h => PyErr.noConfusion h⟩

/-- C3 witness: the amended statement for the tag `not_a_handler` nested
under a key. -/
theorem C3_unknown_tag_amended_witness :
    load_json_file (.stored (.docText (.jobj
        [("data".toList, .jobj [("__type__".toList, .jstr "not_a_handler".toList),
           ("repr".toList, .jstr "x".toList)])])))
      = .error (.typeErrorFrom (.keyError "not_a_handler".toList))
    ∧ ∀ c : PyErr, (PyErr.typeErrorFrom (.keyError "not_a_handler".toList))
        ≠ .jsonDeserializeError c :=
  C3_unknown_tag_amended "data".toList "not_a_handler".toList "x".toList (by decide)

/-- C4 (confirmed): saving a mapping over an existing mapping document is
a shallow merge — every top-level key of the new data overwrites or adds
that key, keys only in the existing tree are preserved, and the merged
tree is exactly what a subsequent load returns.  Stated for plain JSON
data (arbitrarily nested native values with no reserved-key mapping),
with the new mapping's keys duplicate-free as Python dicts guarantee. -/
theorem C4_shallow_merge (E N : List (Key × PyVal)) (jE : JVal)
    (hE : plainPy (.pydict E) = true) (hN : plainPy (.pydict N) = true)
    (hnodup : (N.map Prod.fst).Nodup)
    (hjE : encodeTree (.pydict E) = .ok jE) :
    ∃ jM, update_json_file (.stored (.docText jE)) (.pydict N)
        = (.stored (.docText jM), .ok ())
      ∧ load_json_file (.stored (.docText jM)) = .ok (.pydict (pyDictUpdate E N))
      ∧ ∀ k : Key, lookupKey (pyDictUpdate E N) k
          = (lookupKey N k).orElse (fun _ => lookupKey E k) := by
  obtain ⟨jE0, hj0, hd0⟩ := plain_roundtrip _ hE
  have hEeq : jE0 = jE := by
    have h := hj0.symm.trans hjE
    cases h
    rfl
  subst hEeq
  have hplainM := plainPy_update hE hN hnodup
  obtain ⟨jM, hjM, hdM⟩ := plain_roundtrip _ hplainM
  refine ⟨jM, ?_, ?_, lookup_pyDictUpdate N E hnodup⟩
  · simp only [update_json_file, load_json_file, from_json_str, hd0, pyUpdate,
      dump_to_json_file, hjM]
  · simp only [load_json_file, from_json_str, hdM]

/-- C4 witness: the spec's own example — existing `{"a": 1, "b": 2}`
merged with `{"b": 3, "c": 4}`. -/
theorem C4_shallow_merge_witness :
    ∃ jM, update_json_file
        (.stored (.docText (.jobj [("a".toList, .jnum 1), ("b".toList, .jnum 2)])))
        (.pydict [("b".toList, .pyint 3), ("c".toList, .pyint 4)])
        = (.stored (.docText jM), .ok ())
      ∧ load_json_file (.stored (.docText jM))
        = .ok (.pydict (pyDictUpdate
            [("a".toList, .pyint 1), ("b".toList, .pyint 2)]
            [("b".toList, .pyint 3), ("c".toList, .pyint 4)]))
      ∧ ∀ k : Key, lookupKey (pyDictUpdate
            [("a".toList, .pyint 1), ("b".toList, .pyint 2)]
            [("b".toList, .pyint 3), ("c".toList, .pyint 4)]) k
          = (lookupKey [("b".toList, .pyint 3), ("c".toList, .pyint 4)] k).orElse
              (fun _ => lookupKey [("a".toList, .pyint 1), ("b".toList, .pyint 2)] k) :=
  C4_shallow_merge
    [("a".toList, .pyint 1), ("b".toList, .pyint 2)]
    [("b".toList, .pyint 3), ("c".toList, .pyint 4)]
    (.jobj [("a".toList, .jnum 1), ("b".toList, .jnum 2)])
    rfl rfl (by decide) rfl

/-- C5 (code bug): `save_data` advertises list data and carefully sorts
it, but `update_json_file` unconditionally calls `dict.update` on the
loaded tree, so saving the sorted list `["a", "m", "z"]` over a fresh
file raises `ValueError` (`dictionary update sequence element has length
1; 2 is required`) and writes nothing — the sorted sequence is never
persisted. -/
theorem C5_list_save_valueerror :
    save_data .absent
        (.pylist [.pystr "z".toList, .pystr "a".toList, .pystr "m".toList])
        (some (fun v => v))
      = (.absent, .error (.valueError "dictionary update sequence element".toList)) := rfl

/-- C6 counterexample: a top-level mapping that IS an Envelope with a
registered tag and a decodable payload is not replaced by the decoded
value — it is passed through with both reserved keys intact, refuting
"wherever it occurs in the tree, including as the top-level mapping". -/
theorem C6_top_level_envelope_counterexample :
    load_json_file (.stored (.docText (.jobj
        [("__type__".toList, .jstr "timedelta".toList),
         ("repr".toList, .jstr "1,2,3".toList)])))
      = .ok (.pydict
        [("__type__".toList, .pystr "timedelta".toList),
         ("repr".toList, .pystr "1,2,3".toList)])
    ∧ TimedeltaJSON.deserializeChars "1,2,3".toList = .ok (.pytimedelta 86402000003) :=
  ⟨rfl, rfl⟩

/-- C6 (corrected): an Envelope mapping is decoded exactly when it occurs
as the value of a key in an enclosing mapping — there a registered tag is
replaced by the handler's decoded value and an unregistered tag is an
error, never passed through; but an Envelope that is the top-level mapping
or an element of a sequence is passed through unchanged, registered tag or
not. -/
theorem C6_envelope_decode_amended :
    (∀ (k tag p : List Char) (v : PyVal), tag ∈ serializerNames →
      serializerDecode tag (.pystr p) = .ok v →
      decodeTree (.jobj
          [(k, .jobj [("__type__".toList, .jstr tag), ("repr".toList, .jstr p)])])
        = .ok (.pydict [(k, v)]))
    ∧ (∀ tag p : List Char,
      decodeTree (.jobj [("__type__".toList, .jstr tag), ("repr".toList, .jstr p)])
        = .ok (.pydict [("__type__".toList, .pystr tag), ("repr".toList, .pystr p)]))
    ∧ (∀ tag p : List Char,
      decodeTree (.jarr [.jobj [("__type__".toList, .jstr tag), ("repr".toList, .jstr p)]])
        = .ok (.pylist [.pydict
            [("__type__".toList, .pystr tag), ("repr".toList, .pystr p)]]))
    ∧ (∀ k tag p : List Char, tag ∉ serializerNames →
      decodeTree (.jobj
          [(k, .jobj [("__type__".toList, .jstr tag), ("repr".toList, .jstr p)])])
        = .error (.typeErrorFrom (.keyError tag))) :=
  ⟨fun k tag p v htag hdec => decode_nested_registered k tag p v htag hdec,
   fun tag p => decodeTree_envelope tag p,
   fun _ _ => rfl,
   fun k tag p htag => decode_nested_unregistered k tag p htag⟩

/-- C6 witness: a value-position timedelta Envelope is decoded; a
top-level and a sequence-element Envelope pass through; a value-position
Envelope with an unknown tag errors. -/
theorem C6_envelope_decode_amended_witness :
    decodeTree (.jobj [("when".toList,
        .jobj [("__type__".toList, .jstr "timedelta".toList),
               ("repr".toList, .jstr "1,2,3".toList)])])
      = .ok (.pydict [("when".toList, .pytimedelta 86402000003)])
    ∧ decodeTree (.jobj [("__type__".toList, .jstr "datetime".toList),
        ("repr".toList, .jstr "x".toList)])
      = .ok (.pydict [("__type__".toList, .pystr "datetime".toList),
          ("repr".toList, .pystr "x".toList)])
    ∧ decodeTree (.jarr [.jobj [("__type__".toList, .jstr "datetime".toList),
        ("repr".toList, .jstr "x".toList)]])
      = .ok (.pylist [.pydict [("__type__".toList, .pystr "datetime".toList),
          ("repr".toList, .pystr "x".toList)]])
    ∧ decodeTree (.jobj [("k".toList,
        .jobj [("__type__".toList, .jstr "nope".toList),
               ("repr".toList, .jstr "x".toList)])])
      = .error (.typeErrorFrom (.keyError "nope".toList)) :=
  ⟨C6_envelope_decode_amended.1 "when".toList "timedelta".toList "1,2,3".toList
      (.pytimedelta 86402000003) (by decide) rfl,
   C6_envelope_decode_amended.2.1 "datetime".toList "x".toList,
   C6_envelope_decode_amended.2.2.1 "datetime".toList "x".toList,
   C6_envelope_decode_amended.2.2.2 "k".toList "nope".toList "x".toList (by decide)⟩

/-- C7 counterexample: the one-field payload `"5"` does not make
`TimedeltaJSON.deserialize` fail — `timedelta(5)` is five days. -/
theorem C7_field_count_counterexample :
    (splitBy ',' "5".toList).length = 1
    ∧ TimedeltaJSON.deserializeChars "5".toList = .ok (.pytimedelta 432000000000) :=
  ⟨rfl, rfl⟩

/-- C7 (corrected): decoding splits on the comma and splats the integer
fields into `timedelta(...)`, which accepts up to SEVEN positional
arguments (days, seconds, microseconds, milliseconds, minutes, hours,
weeks) — so any field count from one to seven with in-range integer
fields succeeds, interpreted positionally; only eight or more fields
raise (`TypeError`), besides non-integer or empty fields (`ValueError`)
and out-of-range totals (`OverflowError`). -/
theorem C7_field_count_amended (fields : List Int) (hne : fields ≠ []) :
    (fields.length ≤ 7 → (tdArgsTotal fields / usPerDay).natAbs ≤ 999999999 →
      TimedeltaJSON.deserializeChars (commaJoinInts fields)
        = .ok (.pytimedelta (tdArgsTotal fields)))
    ∧ (8 ≤ fields.length →
      TimedeltaJSON.deserializeChars (commaJoinInts fields) = .error .typeError) := by
  have hsplit := splitBy_commaJoinInts fields hne
  have hmap := mapM_pyToInt_intChars fields
  constructor
  · intro hlen hbound
    rw [TimedeltaJSON.deserializeChars, hsplit]
    simp only [hmap, except_bind_ok]
    rw [pyTimedeltaOfArgs, if_neg (by omega), if_pos hbound]
  · intro hlen
    rw [TimedeltaJSON.deserializeChars, hsplit]
    simp only [hmap, except_bind_ok]
    rw [pyTimedeltaOfArgs, if_pos (by omega)]

/-- C7 witness: one field succeeds as a day count; eight fields raise
`TypeError`. -/
theorem C7_field_count_amended_witness :
    TimedeltaJSON.deserializeChars (commaJoinInts [5])
      = .ok (.pytimedelta (tdArgsTotal [5]))
    ∧ TimedeltaJSON.deserializeChars (commaJoinInts [1, 2, 3, 4, 5, 6, 7, 8])
      = .error .typeError :=
  ⟨(C7_field_count_amended [5] (by simp)).1 (by simp) (by decide),
   (C7_field_count_amended [1, 2, 3, 4, 5, 6, 7, 8] (by simp)).2 (by simp)⟩

/-- C8 (confirmed): a missing path loads as the empty mapping without
raising; an unreadable path (`OSError`) and unparsable text (`ValueError`,
including the empty file) are wrapped into `JSONDeserializeError` with the
underlying failure chained as cause. -/
theorem C8_load_missing_and_failures :
    load_json_file .absent = .ok (.pydict [])
    ∧ load_json_file .unreadable = .error (.jsonDeserializeError .osError)
    ∧ load_json_file (.stored .malformedText)
      = .error (.jsonDeserializeError (.valueError "JSONDecodeError".toList))
    ∧ load_json_file (.stored .emptyText)
      = .error (.jsonDeserializeError (.valueError "No input to deserialize!".toList)) :=
  ⟨rfl, rfl, rfl, rfl⟩

/-- C9 (confirmed): parsing the empty string fails with `ValueError` — the
`if not in_str` guard fires before `json.loads` is reached. -/
theorem C9_empty_input_valueerror :
    from_json_str .emptyText = .error (.valueError "No input to deserialize!".toList) := rfl

/-- C10 (confirmed): Envelope detection keys off `"__type__"` alone; a
mapping value carrying `"__type__"` but no `"repr"` makes the decode fail
with the bare `KeyError` from popping `"repr"` (both pops precede the
`try` block), and `load_json_file` does not wrap it — `KeyError` is
neither an `OSError` nor a `ValueError`. -/
theorem C10_missing_repr_keyerror (k : Key) (inner rest : List (Key × JVal))
    (innerPy : List (Key × PyVal)) (restPy : List (Key × PyVal))
    (hdec : decodeTreePairs inner = .ok innerPy)
    (hrest : decodeTreePairs rest = .ok restPy)
    (hnodict : ∀ kv ∈ innerPy, isDictB kv.2 = false)
    (hty : (lookupKey innerPy "__type__".toList).isSome = true)
    (hrepr : lookupKey (removeKey innerPy "__type__".toList) "repr".toList = none) :
    load_json_file (.stored (.docText (.jobj ((k, .jobj inner) :: rest))))
      = .error (.keyError "repr".toList)
    ∧ ∀ c : PyErr, (PyErr.keyError "repr".toList) ≠ .jsonDeserializeError c := by
  constructor
  · have hinner : decodeTree (.jobj inner) = .ok (.pydict innerPy) := by
      simp only [decodeTree, hdec, except_bind_ok, json_deserial,
        deserialItems_nondict hnodict]
    have hpairs : decodeTreePairs ((k, .jobj inner) :: rest)
        = .ok ((k, .pydict innerPy) :: restPy) := by
      simp only [decodeTreePairs, hinner, hrest, except_bind_ok]
    have hitem := deserialItem_no_repr hty hrepr
    have htop : decodeTree (.jobj ((k, .jobj inner) :: rest))
        = .error (.keyError "repr".toList) := by
      simp only [decodeTree, hpairs, except_bind_ok, json_deserial, deserialItems,
        hitem, except_bind_err]
    simp only [load_json_file, from_json_str, htop]
    rfl
  · exact fun _ h => PyErr.noConfusion h

/-- C10 witness: the document `{"k": {"__type__": "datetime"}, "n": 1}`
loads to a bare `KeyError` on `"repr"`. -/
theorem C10_missing_repr_keyerror_witness :
    load_json_file (.stored (.docText (.jobj
        [("k".toList, .jobj [("__type__".toList, .jstr "datetime".toList)]),
         ("n".toList, .jnum 1)])))
      = .error (.keyError "repr".toList)
    ∧ ∀ c : PyErr, (PyErr.keyError "repr".toList) ≠ .jsonDeserializeError c :=
  C10_missing_repr_keyerror "k".toList
    [("__type__".toList, .jstr "datetime".toList)]
    [("n".toList, .jnum 1)]
    [("__type__".toList, .pystr "datetime".toList)]
    [("n".toList, .pyint 1)]
    rfl rfl (by decide) rfl rfl
